import Mathlib

/-!
# Canteen ordering: order placement and order status

A shallow embedding of `server/controllers/orderController.js` together with the
schemas of `server/models/Order.js` and `server/models/MenuItem.js`.

Conventions of the embedding:

* collections are lists of documents, a document is looked up by the first match;
* JavaScript numbers are integers (`Int`), a value that is not a number is `none`;
* an ObjectId is a natural number, a value that cannot be cast to one is `malformed`;
* time stamps (`createdAt`, `updatedAt`, `statusHistory.timestamp`) are left out;
* a transaction is a session holding the committed database and a working copy;
* every awaited driver call may throw: whether it does is given by `Faults`;
* an order read from the database gets the schema default of `status` (`hydrate`);
* a handler that ends without writing a response has the response `unanswered`.
-/

namespace Canteen

/-! ## Documents -/

/-- A document of the `MenuItem` collection (`models/MenuItem.js`). -/
structure MenuItem where
  _id : Nat
  name : String
  description : String
  category : String
  price : Int
  availableStock : Int
  isActive : Bool
  deriving DecidableEq, Repr

/-- An embedded order line (`orderItemSchema`). -/
structure OrderItem where
  itemId : Nat
  name : String
  price : Int
  qty : Int
  deriving DecidableEq, Repr

/-- An entry of `statusHistory`; `none` is a status that was never given. -/
structure StatusEntry where
  status : Option String
  deriving DecidableEq, Repr

/-- A document of the `Order` collection (`orderSchema`). -/
structure Order where
  _id : Nat
  userId : Nat
  orderToken : String
  items : List OrderItem
  paymentMode : String
  totalAmount : Int
  status : Option String
  statusHistory : List StatusEntry
  deriving DecidableEq, Repr

/-- Modelled from the spec: the `Counter` model (`models/Counter.js` is not part of the
sources): a named integer sequence `(name, seq)` that is only ever incremented. -/
structure Counter where
  name : String
  seq : Nat
  deriving DecidableEq, Repr

/-- Modelled from the spec: the `User` model (`models/User.js` is not part of the sources):
the identity, the public profile `name`/`email` and the role of a user. -/
structure User where
  _id : Nat
  name : String
  email : String
  role : String
  deriving DecidableEq, Repr

/-- The database: the four collections the order engine reads and writes. -/
structure DB where
  menuItems : List MenuItem
  orders : List Order
  counters : List Counter
  users : List User
  deriving DecidableEq, Repr

/-! ## Requests, responses, events -/

/-- A value given where an ObjectId is expected. -/
inductive IdArg where
  | oid (n : Nat)
  | malformed (raw : String)
  deriving DecidableEq, Repr

/-- One entry of `req.body.items`. Only `itemId` and `qty` are read by the server; `price`
stands for whatever else the caller puts into the line. -/
structure CartLine where
  itemId : IdArg
  qty : Option Int
  price : Option Int
  deriving DecidableEq, Repr

/-- The request of `createOrder`: `req.user._id`, `req.body` and whether `req.io` is set.
`totalAmount` stands for a total the caller may send along; the server never reads it. -/
structure CreateRequest where
  userId : Nat
  items : Option (List CartLine)
  paymentMode : Option String
  totalAmount : Option Int
  socket : Bool
  deriving DecidableEq, Repr

/-- The request of `updateOrderStatus`: `req.params.id`, `req.body.status`, `req.io`. -/
structure StatusRequest where
  id : IdArg
  status : Option String
  socket : Bool
  deriving DecidableEq, Repr

/-- The projection `populate('userId', 'name email')` keeps of a user. -/
structure Profile where
  _id : Nat
  name : String
  email : String
  deriving DecidableEq, Repr

/-- An order whose `userId` has been populated (`none` when the user does not exist). -/
structure PopulatedOrder where
  order : Order
  user : Option Profile
  deriving DecidableEq, Repr

/-- What an awaited call threw; the catch block answers 500 with the error's message. -/
inductive Thrown where
  | cast
  | validation
  | duplicateKey
  | storage
  | typeError
  deriving DecidableEq, Repr

/-- The answer written to `res`; `unanswered` when the handler ends without writing one
(its promise is rejected). -/
inductive Response where
  | fail (code : Nat) (message : String)
  | ok (code : Nat) (data : Option PopulatedOrder)
  | caught (e : Thrown)
  | unanswered
  deriving DecidableEq, Repr

/-- The HTTP status of a response (0 when none is written). -/
def Response.code : Response → Nat
  | .fail c _ => c
  | .ok c _ => c
  | .caught _ => 500
  | .unanswered => 0

/-- The `success` flag of a response. -/
def Response.success : Response → Bool
  | .ok _ _ => true
  | _ => false

/-- What is emitted on a socket room. -/
inductive Payload where
  | order (o : Option PopulatedOrder)
  | notification (type : String) (message : String) (o : Option PopulatedOrder)
  deriving DecidableEq, Repr

/-- One `req.io.to(room).emit(event, payload)`. -/
structure Emit where
  room : String
  event : String
  payload : Payload
  deriving DecidableEq, Repr

/-- The awaited calls that may throw for reasons outside the data (`true`: the call throws).
`find i` and `save i` are the `findById` and the `save` of the i-th cart line (of the order,
in `updateOrderStatus`, at index 0); `emit` says that the socket throws, which it does at
the first emit a handler reaches. -/
structure Faults where
  find : Nat → Bool
  save : Nat → Bool
  sequence : Bool
  create : Bool
  commit : Bool
  populate : Bool
  emit : Bool

/-- No call throws. -/
def Faults.none : Faults :=
  ⟨fun _ => false, fun _ => false, false, false, false, false, false⟩

/-- The result of a handler: the database afterwards, the response, the emitted events. -/
structure Outcome where
  db : DB
  response : Response
  emitted : List Emit
  deriving DecidableEq, Repr

/-! ## Schema validation -/

/-- The `enum` of `MenuItem.category`. -/
def categoryEnum : List String := ["snacks", "drinks", "meals", "desserts", "beverages"]

/-- The `enum` of `Order.paymentMode`. -/
def paymentModeEnum : List String := ["counter", "online"]

/-- The `enum` of `Order.status`. -/
def statusEnum : List String := ["Placed", "In Preparation", "Ready", "Completed", "Cancelled"]

/-- The validators of `menuItemSchema`, run by `menuItem.save`. -/
def validMenuItem (m : MenuItem) : Bool :=
  decide (m.name ≠ "") && decide (m.name.length ≤ 100) && decide (m.description.length ≤ 500)
    && decide (m.category ∈ categoryEnum) && decide (0 ≤ m.price)
    && decide (0 ≤ m.availableStock)

/-- The validators of `orderItemSchema`. -/
def validOrderItem (l : OrderItem) : Bool :=
  decide (l.name ≠ "") && decide (0 ≤ l.price) && decide (1 ≤ l.qty)

/-- The `enum` validator of `status`: it is not run on a value that is not given. -/
def validStatus : Option String → Bool
  | none => true
  | some s => decide (s ∈ statusEnum)

/-- The validators of `orderSchema`, run by `Order.create` and by `order.save`. -/
def validOrder (o : Order) : Bool :=
  decide (o.orderToken ≠ "") && decide (0 < o.items.length) && o.items.all validOrderItem
    && decide (o.paymentMode ∈ paymentModeEnum) && decide (0 ≤ o.totalAmount)
    && validStatus o.status

/-! ## Collections -/

/-- `MenuItem.findById`. -/
def findMenuItem (id : Nat) : List MenuItem → Option MenuItem
  | [] => none
  | m :: ms => if m._id = id then some m else findMenuItem id ms

/-- The write of `menuItem.save`: the stored document with that `_id` is replaced. -/
def saveMenuItem (x : MenuItem) : List MenuItem → List MenuItem
  | [] => []
  | m :: ms => if m._id = x._id then x :: ms else m :: saveMenuItem x ms

/-- `Order.findById`. -/
def findOrder (id : Nat) : List Order → Option Order
  | [] => none
  | o :: os => if o._id = id then some o else findOrder id os

/-- The write of `order.save` for a stored order. -/
def saveOrder (x : Order) : List Order → List Order
  | [] => []
  | o :: os => if o._id = x._id then x :: os else o :: saveOrder x os

/-- An `_id` no stored order has (the ObjectId generated for a new document). -/
def freshOrderId (os : List Order) : Nat :=
  (os.map (fun o => o._id)).foldr max 0 + 1

/-- The schema defaults a read fills in: an order stored without `status` is read with the
default `Placed`. -/
def hydrate (o : Order) : Order :=
  { o with status := some (o.status.getD "Placed") }

/-- `populate('userId', 'name email')`. -/
def populate (users : List User) (o : Order) : PopulatedOrder :=
  ⟨o, (users.find? (fun u => u._id = o.userId)).map (fun u => ⟨u._id, u.name, u.email⟩)⟩

/-- `Counter.findOneAndUpdate({name}, {$inc: {seq: 1}}, {new: true, upsert: true})`: the
updated document and the collection afterwards. -/
def findOneAndUpdateInc (name : String) : List Counter → Counter × List Counter
  | [] => (⟨name, 1⟩, [⟨name, 1⟩])
  | c :: cs =>
    if c.name = name then (⟨c.name, c.seq + 1⟩, ⟨c.name, c.seq + 1⟩ :: cs)
    else ((findOneAndUpdateInc name cs).1, c :: (findOneAndUpdateInc name cs).2)

/-- The function `getNextSequence`: the `seq` of the updated counter (and the collection). -/
def getNextSequence (name : String) (counters : List Counter) : Nat × List Counter :=
  ((findOneAndUpdateInc name counters).1.seq, (findOneAndUpdateInc name counters).2)

/-- The stored `seq` of a counter. -/
def seqOf (name : String) : List Counter → Option Nat
  | [] => none
  | c :: cs => if c.name = name then some c.seq else seqOf name cs

/-! ## Order tokens -/

/-- `String.prototype.padStart` with a one-character pad string. -/
def padStart (s : String) (targetLength : Nat) (c : Char) : String :=
  String.mk (List.replicate (targetLength - s.length) c) ++ s

/-- The token built from a sequence value: the text `TKN` and the 4-padded decimal number. -/
def orderTokenOf (tokenNum : Nat) : String :=
  "TKN" ++ padStart (toString tokenNum) 4 '0'

/-! ## Transactions -/

/-- A session with a started transaction: reads and writes go to `working`. -/
structure Session where
  committed : DB
  working : DB
  deriving DecidableEq, Repr

/-- `session.startTransaction()`. -/
def startTransaction (db : DB) : Session := ⟨db, db⟩

/-- `session.abortTransaction()`: the database is what was committed before. -/
def abortTransaction (s : Session) : DB := s.committed

/-- `session.commitTransaction()`: the working copy becomes the database. -/
def commitTransaction (s : Session) : DB := s.working

/-! ## createOrder -/

/-- The loop over `items` (lines 39 to 78), started at cart position `i`: every exit of the
loop body that answers the request aborts the transaction first, and so does the catch block.
The result is the session, the order lines and the total after the last line, or the
database and the response after an abort. -/
def processItems (f : Faults) :
    Nat → List CartLine → Session → List OrderItem → Int →
      Except (DB × Response) (Session × List OrderItem × Int)
  | _, [], s, orderItems, totalAmount => .ok (s, orderItems, totalAmount)
  | i, item :: rest, s, orderItems, totalAmount =>
    match item.itemId with
    | .malformed _ => .error (abortTransaction s, .caught .cast)
    | .oid id =>
      if f.find i then .error (abortTransaction s, .caught .storage)
      else
        match findMenuItem id s.working.menuItems with
        | none =>
          .error (abortTransaction s, .fail 404 ("Menu item " ++ toString id ++ " not found"))
        | some menuItem =>
          if !menuItem.isActive then
            .error (abortTransaction s, .fail 400 (menuItem.name ++ " is currently unavailable"))
          else
            match item.qty with
            | none => .error (abortTransaction s, .caught .cast)
            | some qty =>
              if menuItem.availableStock < qty then
                .error (abortTransaction s,
                  .fail 400 ("Insufficient stock for " ++ menuItem.name ++ ". Available: "
                    ++ toString menuItem.availableStock))
              else
                let saved : MenuItem :=
                  { menuItem with availableStock := menuItem.availableStock - qty }
                if !validMenuItem saved then .error (abortTransaction s, .caught .validation)
                else if f.save i then .error (abortTransaction s, .caught .storage)
                else
                  processItems f (i + 1) rest
                    { s with working :=
                        { s.working with menuItems := saveMenuItem saved s.working.menuItems } }
                    (orderItems ++ [⟨menuItem._id, menuItem.name, menuItem.price, qty⟩])
                    (totalAmount + menuItem.price * qty)

/-- The value of `paymentMode || 'counter'`. -/
def paymentModeOrDefault : Option String → String
  | none => "counter"
  | some m => if m = "" then "counter" else m

/-- The document `Order.create` builds (lines 85 to 92) before it is validated and saved. -/
def newOrder (s : Session) (userId : Nat) (orderToken : String) (orderItems : List OrderItem)
    (paymentMode : Option String) (totalAmount : Int) : Order :=
  { _id := freshOrderId s.working.orders
    userId := userId
    orderToken := orderToken
    items := orderItems
    paymentMode := paymentModeOrDefault paymentMode
    totalAmount := totalAmount
    status := some "Placed"
    statusHistory := [] }

/-- The hook `orderSchema.pre('save')`: a new document gets its status as first entry. -/
def preSave (isNew : Bool) (o : Order) : Order :=
  if isNew then { o with statusHistory := o.statusHistory ++ [⟨o.status⟩] } else o

/-- The try block of `createOrder` up to `commitTransaction` (lines 23 to 94): the committed
database and the created order, or the database and the response after an abort. When
`commitTransaction` throws nothing is committed, and the `abortTransaction` of the catch
block, called on a session whose commit was called, throws in turn: no response is
written. -/
def createOrderTxn (f : Faults) (db : DB) (req : CreateRequest) :
    Except (DB × Response) (DB × Order) :=
  let s := startTransaction db
  match req.items with
  | none => .error (abortTransaction s, .fail 400 "Order must contain at least one item")
  | some [] => .error (abortTransaction s, .fail 400 "Order must contain at least one item")
  | some (item :: rest) =>
    match processItems f 0 (item :: rest) s [] 0 with
    | .error e => .error e
    | .ok (s, orderItems, totalAmount) =>
      if f.sequence then .error (abortTransaction s, .caught .storage)
      else
        let tokenNum := (getNextSequence "orderToken" s.working.counters).1
        let s : Session :=
          { s with working :=
              { s.working with
                counters := (getNextSequence "orderToken" s.working.counters).2 } }
        let orderToken := orderTokenOf tokenNum
        let order := newOrder s req.userId orderToken orderItems req.paymentMode totalAmount
        if !validOrder order then .error (abortTransaction s, .caught .validation)
        else if orderToken ∈ s.working.orders.map (fun o => o.orderToken) then
          .error (abortTransaction s, .caught .duplicateKey)
        else if f.create then .error (abortTransaction s, .caught .storage)
        else
          let order := preSave true order
          let s : Session :=
            { s with working := { s.working with orders := s.working.orders ++ [order] } }
          if f.commit then .error (abortTransaction s, .unanswered)
          else .ok (commitTransaction s, order)

/-- The handler `createOrder`. After the commit the order is read back and populated, the
event `order:new` is emitted to `admin_room` when `req.io` is set, and 201 is answered; a
throw there reaches the catch block, whose `abortTransaction` throws on the committed
session: the order stays committed and no response is written. -/
def createOrder (f : Faults) (db : DB) (req : CreateRequest) : Outcome :=
  match createOrderTxn f db req with
  | .error (db, r) => ⟨db, r, []⟩
  | .ok (db, order) =>
    if f.populate then ⟨db, .unanswered, []⟩
    else
      let populatedOrder :=
        (findOrder order._id db.orders).map (fun o => populate db.users (hydrate o))
      if req.socket then
        if f.emit then ⟨db, .unanswered, []⟩
        else
          ⟨db, .ok 201 populatedOrder, [⟨"admin_room", "order:new", .order populatedOrder⟩]⟩
      else ⟨db, .ok 201 populatedOrder, []⟩

/-! ## updateOrderStatus -/

/-- The method `orderSchema.methods.updateStatus`. -/
def updateStatus (o : Order) (newStatus : Option String) : Order :=
  { o with status := newStatus, statusHistory := o.statusHistory ++ [⟨newStatus⟩] }

/-- The text `${status}` of a status. -/
def statusText : Option String → String
  | none => "undefined"
  | some s => s

/-- The handler `updateOrderStatus`. The status a read would fill in for a stored order
without one is overwritten by `updateStatus`; the order read back for the response and the
events gets the schema default. -/
def updateOrderStatus (f : Faults) (db : DB) (req : StatusRequest) : Outcome :=
  match req.id with
  | .malformed _ => ⟨db, .caught .cast, []⟩
  | .oid id =>
    if f.find 0 then ⟨db, .caught .storage, []⟩
    else
      match findOrder id db.orders with
      | none => ⟨db, .fail 404 "Order not found", []⟩
      | some stored =>
        let order := preSave false (updateStatus stored req.status)
        if !validOrder order then ⟨db, .caught .validation, []⟩
        else if f.save 0 then ⟨db, .caught .storage, []⟩
        else
          let db : DB := { db with orders := saveOrder order db.orders }
          if f.populate then ⟨db, .caught .storage, []⟩
          else
            let populatedOrder :=
              (findOrder order._id db.orders).map (fun o => populate db.users (hydrate o))
            if req.socket then
              if f.emit then ⟨db, .caught .storage, []⟩
              else
                ⟨db, .ok 200 populatedOrder,
                  [⟨"admin_room", "order:update", .order populatedOrder⟩,
                   ⟨"user_" ++ toString order.userId, "notify:user",
                     .notification "order_status"
                       ("Your order " ++ order.orderToken ++ " is now " ++ statusText req.status)
                       populatedOrder⟩]⟩
            else ⟨db, .ok 200 populatedOrder, []⟩

/-! ## getOrder, getAllOrders and the role check -/

/-- The authenticated user `req.user` as the order routes read it. -/
structure Requester where
  _id : Nat
  role : String
  deriving DecidableEq, Repr

/-- The handler `getOrder` (lines 123 to 154): the order is read and populated; reading
`order.userId._id` of an order whose user does not exist throws. -/
def getOrder (f : Faults) (db : DB) (user : Requester) (id : IdArg) : Response :=
  match id with
  | .malformed _ => .caught .cast
  | .oid id =>
    if f.find 0 || f.populate then .caught .storage
    else
      match findOrder id db.orders with
      | none => .fail 404 "Order not found"
      | some stored =>
        let order := populate db.users (hydrate stored)
        match order.user with
        | none => .caught .typeError
        | some owner =>
          if owner._id ≠ user._id ∧ user.role ∉ ["admin", "staff"] then
            .fail 403 "Not authorized to view this order"
          else .ok 200 (some order)

/-- The query of `getAllOrders`: `req.query.status`, and for `req.query.date` the test
whether an order was created on that day (the time stamps are not part of the model). -/
structure OrdersQuery where
  status : Option String
  date : Option (Order → Bool)

/-- The answer of a handler that lists orders. -/
inductive ListResponse where
  | ok (code : Nat) (count : Nat) (data : List PopulatedOrder)
  | fail (code : Nat) (message : String)
  | caught (e : Thrown)
  deriving DecidableEq, Repr

/-- The filter `Order.find(query)` applies to one order. -/
def matchesQuery (q : OrdersQuery) (o : Order) : Bool :=
  (match q.status with
    | none => true
    | some st => if st = "" then true else decide (o.status = some st))
  && (match q.date with
    | none => true
    | some created => created o)

/-- The handler `getAllOrders` (lines 181 to 213). The stored orders are in the order of
their creation, so the sort by `createdAt` descending is the reversed list. -/
def getAllOrders (f : Faults) (db : DB) (q : OrdersQuery) : ListResponse :=
  if f.find 0 || f.populate then .caught .storage
  else
    let orders :=
      ((db.orders.filter (matchesQuery q)).reverse).map (fun o => populate db.users (hydrate o))
    .ok 200 orders.length orders

/-- What a middleware does: it answers the request or it calls `next()`. -/
inductive Gate where
  | respond (r : Response)
  | next
  deriving DecidableEq, Repr

/-- The middleware `authorize(...roles)` of `middleware/auth.js`. -/
def authorize (roles : List String) (user : Option Requester) : Gate :=
  match user with
  | none => .respond (.fail 401 "Not authorized")
  | some u =>
    if u.role ∉ roles then
      .respond (.fail 403 ("User role '" ++ u.role ++ "' is not authorized to access this route"))
    else .next

/-- The route `PUT /api/orders/:id/status` behind `protect`:
`authorize('admin', 'staff'), updateOrderStatus`. -/
def putOrderStatusRoute (f : Faults) (db : DB) (user : Option Requester)
    (req : StatusRequest) : Outcome :=
  match authorize ["admin", "staff"] user with
  | .respond r => ⟨db, r, []⟩
  | .next => updateOrderStatus f db req

/-- The answer of the route that lists orders: that of the role check or of the handler. -/
inductive ListRouteResponse where
  | denied (r : Response)
  | handled (r : ListResponse)
  deriving DecidableEq, Repr

/-- The route `GET /api/orders` behind `protect`: `authorize('admin', 'staff'), getAllOrders`. -/
def getOrdersRoute (f : Faults) (db : DB) (user : Option Requester)
    (q : OrdersQuery) : ListRouteResponse :=
  match authorize ["admin", "staff"] user with
  | .respond r => .denied r
  | .next => .handled (getAllOrders f db q)

/-! ## The menu controller -/

/-- The body of a menu request: the fields given (`none`: the field is not given, or, for a
number, is not a number). -/
structure MenuItemInput where
  name : Option String
  description : Option String
  category : Option String
  price : Option Int
  availableStock : Option Int
  isActive : Option Bool
  deriving DecidableEq, Repr

/-- The answer of a handler of the menu controller; its catch blocks answer with the code
given and the message of the error. -/
inductive MenuResponse where
  | item (code : Nat) (data : MenuItem)
  | message (code : Nat) (success : Bool) (message : String)
  | caught (code : Nat) (e : Thrown)
  deriving DecidableEq, Repr

/-- The result of a handler of the menu controller. -/
structure MenuOutcome where
  db : DB
  response : MenuResponse
  deriving DecidableEq, Repr

/-- An `_id` no stored menu item has. -/
def freshMenuItemId (ms : List MenuItem) : Nat :=
  (ms.map (fun m => m._id)).foldr max 0 + 1

/-- The handler `createMenuItem`: `MenuItem.create(req.body)` with the defaults and the
`trim` of the schema. -/
def createMenuItem (f : Faults) (db : DB) (body : MenuItemInput) : MenuOutcome :=
  match body.name, body.price with
  | some name, some price =>
    let menuItem : MenuItem :=
      { _id := freshMenuItemId db.menuItems
        name := name.trim
        description := (body.description.getD "").trim
        category := body.category.getD "snacks"
        price := price
        availableStock := body.availableStock.getD 0
        isActive := body.isActive.getD true }
    if !validMenuItem menuItem then ⟨db, .caught 400 .validation⟩
    else if f.create then ⟨db, .caught 400 .storage⟩
    else ⟨{ db with menuItems := db.menuItems ++ [menuItem] }, .item 201 menuItem⟩
  | _, _ => ⟨db, .caught 400 .validation⟩

/-- The update validators (`runValidators: true`): the validators of the fields given. -/
def validMenuItemInput (body : MenuItemInput) : Bool :=
  (match body.name with
    | none => true
    | some n => decide (n.trim ≠ "") && decide (n.trim.length ≤ 100))
  && (match body.description with
    | none => true
    | some d => decide (d.trim.length ≤ 500))
  && (match body.category with
    | none => true
    | some c => decide (c ∈ categoryEnum))
  && (match body.price with
    | none => true
    | some p => decide (0 ≤ p))
  && (match body.availableStock with
    | none => true
    | some st => decide (0 ≤ st))

/-- The stored item with the fields given written over it. -/
def applyMenuItemInput (m : MenuItem) (body : MenuItemInput) : MenuItem :=
  { _id := m._id
    name := (body.name.map String.trim).getD m.name
    description := (body.description.map String.trim).getD m.description
    category := body.category.getD m.category
    price := body.price.getD m.price
    availableStock := body.availableStock.getD m.availableStock
    isActive := body.isActive.getD m.isActive }

/-- The handler `updateMenuItem`: `MenuItem.findByIdAndUpdate(id, body, ...)`. -/
def updateMenuItem (f : Faults) (db : DB) (id : IdArg) (body : MenuItemInput) : MenuOutcome :=
  match id with
  | .malformed _ => ⟨db, .caught 400 .cast⟩
  | .oid id =>
    if !validMenuItemInput body then ⟨db, .caught 400 .validation⟩
    else if f.find 0 then ⟨db, .caught 400 .storage⟩
    else
      match findMenuItem id db.menuItems with
      | none => ⟨db, .message 404 false "Menu item not found"⟩
      | some stored =>
        ⟨{ db with menuItems := saveMenuItem (applyMenuItemInput stored body) db.menuItems },
          .item 200 (applyMenuItemInput stored body)⟩

/-- The write of `findByIdAndDelete`: the first document with that `_id` is removed. -/
def removeMenuItem (id : Nat) : List MenuItem → List MenuItem
  | [] => []
  | m :: ms => if m._id = id then ms else m :: removeMenuItem id ms

/-- The handler `deleteMenuItem`: `MenuItem.findByIdAndDelete(id)`. -/
def deleteMenuItem (f : Faults) (db : DB) (id : IdArg) : MenuOutcome :=
  match id with
  | .malformed _ => ⟨db, .caught 500 .cast⟩
  | .oid id =>
    if f.find 0 then ⟨db, .caught 500 .storage⟩
    else
      match findMenuItem id db.menuItems with
      | none => ⟨db, .message 404 false "Menu item not found"⟩
      | some _ =>
        ⟨{ db with menuItems := removeMenuItem id db.menuItems },
          .message 200 true "Menu item deleted successfully"⟩

/-! ## Runs -/

/-- A request handled by the order engine. -/
inductive Op where
  | create (f : Faults) (req : CreateRequest)
  | status (f : Faults) (req : StatusRequest)

/-- The outcome of one request. -/
def Op.apply (db : DB) : Op → Outcome
  | .create f req => createOrder f db req
  | .status f req => updateOrderStatus f db req

/-- The database after the requests have been handled one after the other. -/
def run (db : DB) : List Op → DB
  | [] => db
  | op :: ops => run (op.apply db).db ops

/-- A request that writes to the database: one of the order engine or of the menu
controller. -/
inductive Request where
  | order (op : Op)
  | menuCreate (f : Faults) (body : MenuItemInput)
  | menuUpdate (f : Faults) (id : IdArg) (body : MenuItemInput)
  | menuDelete (f : Faults) (id : IdArg)

/-- The database after one request. -/
def Request.apply (db : DB) : Request → DB
  | .order op => (op.apply db).db
  | .menuCreate f body => (createMenuItem f db body).db
  | .menuUpdate f id body => (updateMenuItem f db id body).db
  | .menuDelete f id => (deleteMenuItem f db id).db

/-- The database after the requests have been served one after the other. -/
def serve (db : DB) : List Request → DB
  | [] => db
  | r :: rs => serve (r.apply db) rs

/-! ## Sample data -/

/-- The seeded item `Chai` with stock 100 and price 10. -/
def chai : MenuItem := ⟨1, "Chai", "", "beverages", 10, 100, true⟩

/-- An item of which two are left. -/
def samosa : MenuItem := ⟨2, "Samosa", "", "snacks", 15, 2, true⟩

/-- A database as the seed script leaves it, with the two sample items. -/
def sampleDB : DB :=
  { menuItems := [chai, samosa]
    orders := []
    counters := [⟨"orderToken", 0⟩]
    users := [⟨7, "Student User", "student@college.com", "student"⟩] }

/-- The cart of the scenario: three `Chai`, paid at the counter. -/
def chaiRequest : CreateRequest :=
  ⟨7, some [⟨.oid 1, some 3, none⟩], some "counter", none, true⟩

/-- The order the scenario creates. -/
def chaiOrder : Order :=
  { _id := 1
    userId := 7
    orderToken := "TKN0001"
    items := [⟨1, "Chai", 10, 3⟩]
    paymentMode := "counter"
    totalAmount := 30
    status := some "Placed"
    statusHistory := [⟨some "Placed"⟩] }

/-- Two status requests for the order with `_id` 1. -/
def sampleStatusCalls : List (Faults × StatusRequest) :=
  [(Faults.none, ⟨.oid 1, some "In Preparation", true⟩),
   (Faults.none, ⟨.oid 1, some "Ready", true⟩)]

/-- The order of the scenario after it has been completed. -/
def completedOrder : Order :=
  { chaiOrder with
    status := some "Completed"
    statusHistory := [⟨some "Placed"⟩, ⟨some "Completed"⟩] }

/-- A database that holds the completed order. -/
def completedDB : DB :=
  { sampleDB with orders := [completedOrder], counters := [⟨"orderToken", 1⟩] }

/-- A student who is not the owner of the sample order. -/
def otherStudent : Requester := ⟨8, "student"⟩

/-- The database with the completed order after the users were deleted (as the seed script
does, which clears users, menu items and counters and keeps the orders). -/
def ownerGoneDB : DB := { completedDB with users := [] }

/-! ## Quantities used by the statements -/

/-- The `availableStock` stored for an item. -/
def stockOf (id : Nat) (menu : List MenuItem) : Option Int :=
  (findMenuItem id menu).map (fun m => m.availableStock)

/-- The quantity of an item in a list of order lines. -/
def orderedQty (id : Nat) : List OrderItem → Int
  | [] => 0
  | l :: ls => (if l.itemId = id then l.qty else 0) + orderedQty id ls

/-- The quantity of an item in a list of orders. -/
def orderedQtyAll (id : Nat) : List Order → Int
  | [] => 0
  | o :: os => orderedQty id o.items + orderedQtyAll id os

/-- The sum of `price * qty` over a list of order lines. -/
def linesTotal : List OrderItem → Int
  | [] => 0
  | l :: ls => l.price * l.qty + linesTotal ls

/-- The value of the counter `orderToken`; a counter that does not exist yet counts as 0. -/
def tokenSeq (db : DB) : Nat := (seqOf "orderToken" db.counters).getD 0

/-- The database after a sequence of `createOrder` calls. -/
def placeAll (db : DB) : List (Faults × CreateRequest) → DB
  | [] => db
  | c :: cs => placeAll (createOrder c.1 db c.2).db cs

/-- The values a sequence of `getNextSequence` calls (for the names `calls`, one after the
other) returns to the calls for `name`. -/
def issued (name : String) : List Counter → List String → List Nat
  | _, [] => []
  | cs, n :: ns =>
    if n = name then (getNextSequence n cs).1 :: issued name (getNextSequence n cs).2 ns
    else issued name (getNextSequence n cs).2 ns

/-- The database after a sequence of `updateOrderStatus` calls. -/
def statusAll (db : DB) : List (Faults × StatusRequest) → DB
  | [] => db
  | c :: cs => statusAll (updateOrderStatus c.1 db c.2).db cs

/-- Whether every call of a sequence of `updateOrderStatus` calls answers with success. -/
def statusAllSucceed (db : DB) : List (Faults × StatusRequest) → Bool
  | [] => true
  | c :: cs =>
    (updateOrderStatus c.1 db c.2).response.success
      && statusAllSucceed (updateOrderStatus c.1 db c.2).db cs

/-- The decimal value of a list of digits. -/
def decimalValue (cs : List Char) : Nat :=
  cs.foldl (fun acc c => acc * 10 + (c.toNat - '0'.toNat)) 0

/-- Modelled from the spec: the reading of a token back to its sequence value, which the
sources do not contain: the text behind the three characters `TKN`, read as a decimal
number. -/
def tokenNumber (t : String) : Nat := decimalValue (t.data.drop 3)

/-- The part of an order that is written when the order is created: everything but `status`
and `statusHistory`. -/
def immutablePart (o : Order) : Nat × Nat × String × List OrderItem × String × Int :=
  (o._id, o.userId, o.orderToken, o.items, o.paymentMode, o.totalAmount)

/-- Requests served after the sample order was completed: a price edit of `Chai`, the
cancellation of the order, the removal of `Chai` and a new order for `Samosa`. -/
def sampleRequests : List Request :=
  [.menuUpdate Faults.none (.oid 1) ⟨none, none, none, some 99, none, none⟩,
   .order (.status Faults.none ⟨.oid 1, some "Cancelled", true⟩),
   .menuDelete Faults.none (.oid 1),
   .order (.create Faults.none ⟨7, some [⟨.oid 2, some 1, none⟩], none, none, true⟩)]

/-- The validators of `orderSchema` on the fields other than `status`. -/
def validOrderFields (o : Order) : Bool :=
  decide (o.orderToken ≠ "") && decide (0 < o.items.length) && o.items.all validOrderItem
    && decide (o.paymentMode ∈ paymentModeEnum) && decide (0 ≤ o.totalAmount)

/-- An order with at least one line, on every line a quantity of at least one and a price
that is not negative, and a total that is not negative. -/
def wellFormedOrder (o : Order) : Prop :=
  0 < o.items.length ∧ (∀ l ∈ o.items, 1 ≤ l.qty ∧ 0 ≤ l.price) ∧ 0 ≤ o.totalAmount

/-- The status of the last entry of the status history is the status of the order. -/
def statusIsLastEntry (o : Order) : Prop :=
  o.statusHistory.getLast? = some ⟨o.status⟩

/-- The query of the kiosk display: `GET /orders?status=Ready,In Preparation,Placed`. -/
def kioskQuery : OrdersQuery := ⟨some "Ready,In Preparation,Placed", none⟩

/-- The sample database with the order of the scenario stored. -/
def placedDB : DB :=
  { sampleDB with orders := [chaiOrder], counters := [⟨"orderToken", 1⟩] }

/-- Storage calls of which only the emit on the socket throws. -/
def emitFails : Faults :=
  ⟨fun _ => false, fun _ => false, false, false, false, false, true⟩

/-- Storage calls of which only the read of the order after the commit throws. -/
def readBackFails : Faults :=
  ⟨fun _ => false, fun _ => false, false, false, false, true, false⟩

/-! ## The cart of the client -/

/-- An entry of the cart of `context/AuthContext.js`: the menu item and its `qty`. -/
structure CartItem where
  item : MenuItem
  qty : Int
  deriving DecidableEq, Repr

/-- The update of `addToCart`. -/
def addToCart (item : MenuItem) (prevCart : List CartItem) : List CartItem :=
  match prevCart.find? (fun cartItem => cartItem.item._id = item._id) with
  | some _ =>
    prevCart.map (fun cartItem =>
      if cartItem.item._id = item._id then { cartItem with qty := cartItem.qty + 1 }
      else cartItem)
  | none => prevCart ++ [⟨item, 1⟩]

/-- The update of `removeFromCart`. -/
def removeFromCart (itemId : Nat) (prevCart : List CartItem) : List CartItem :=
  prevCart.filter (fun item => item.item._id ≠ itemId)

/-- The update of `updateCartQty`. -/
def updateCartQty (itemId : Nat) (qty : Int) (prevCart : List CartItem) : List CartItem :=
  if qty ≤ 0 then removeFromCart itemId prevCart
  else prevCart.map (fun item => if item.item._id = itemId then { item with qty := qty } else item)

/-- The update of `clearCart`. -/
def clearCart (_prevCart : List CartItem) : List CartItem := []

/-- A call of one of the four cart functions. -/
inductive CartAction where
  | add (item : MenuItem)
  | remove (itemId : Nat)
  | update (itemId : Nat) (qty : Int)
  | clear

/-- The cart after one call. -/
def CartAction.apply (cart : List CartItem) : CartAction → List CartItem
  | .add item => addToCart item cart
  | .remove itemId => removeFromCart itemId cart
  | .update itemId qty => updateCartQty itemId qty cart
  | .clear => clearCart cart

/-- The cart after a sequence of calls. -/
def cartAfter (cart : List CartItem) : List CartAction → List CartItem
  | [] => cart
  | a :: as => cartAfter (a.apply cart) as

/-- No two entries of the cart share an item `_id` and every entry has a `qty` of at least
one. -/
def cartOk (cart : List CartItem) : Prop :=
  (cart.map (fun c => c.item._id)).Nodup ∧ ∀ c ∈ cart, 1 ≤ c.qty

/-! ## Theorems -/

/-! ### Collections -/

theorem findMenuItem_id {id : Nat} {menu : List MenuItem} {m : MenuItem}
    (h : findMenuItem id menu = some m) : m._id = id := by
  induction menu with
  | nil => simp [findMenuItem] at h
  | cons a as ih =>
    unfold findMenuItem at h
    split at h
    · rename_i ha
      cases h
      exact ha
    · exact ih h

theorem findMenuItem_mem {id : Nat} {menu : List MenuItem} {m : MenuItem}
    (h : findMenuItem id menu = some m) : m ∈ menu := by
  induction menu with
  | nil => simp [findMenuItem] at h
  | cons a as ih =>
    unfold findMenuItem at h
    split at h
    · cases h
      exact List.mem_cons_self _ _
    · exact List.mem_cons_of_mem _ (ih h)

theorem findMenuItem_save {x m : MenuItem} {menu : List MenuItem}
    (h : findMenuItem x._id menu = some m) (id : Nat) :
    findMenuItem id (saveMenuItem x menu)
      = if id = x._id then some x else findMenuItem id menu := by
  induction menu with
  | nil => simp [findMenuItem] at h
  | cons a as ih =>
    unfold findMenuItem at h
    by_cases ha : a._id = x._id
    · simp only [saveMenuItem, ha, if_true, findMenuItem]
      by_cases hid : id = x._id
      · simp [hid]
      · have : ¬ x._id = id := fun e => hid e.symm
        simp [hid, this]
    · simp only [ha, if_false] at h
      simp only [saveMenuItem, ha, if_false, findMenuItem]
      by_cases hid : id = x._id
      · subst hid
        simp only [ha, if_false, ih h, if_true]
      · by_cases hai : a._id = id
        · simp [hai, hid]
        · simp only [hai, if_false, ih h, hid]

theorem mem_saveMenuItem {x m : MenuItem} {menu : List MenuItem}
    (h : m ∈ saveMenuItem x menu) : m = x ∨ m ∈ menu := by
  induction menu with
  | nil => simp [saveMenuItem] at h
  | cons a as ih =>
    unfold saveMenuItem at h
    split at h
    · rcases List.mem_cons.mp h with h | h
      · exact Or.inl h
      · exact Or.inr (List.mem_cons_of_mem _ h)
    · rcases List.mem_cons.mp h with h | h
      · exact Or.inr (h ▸ List.mem_cons_self _ _)
      · rcases ih h with h | h
        · exact Or.inl h
        · exact Or.inr (List.mem_cons_of_mem _ h)

theorem orderedQty_append (id : Nat) (a b : List OrderItem) :
    orderedQty id (a ++ b) = orderedQty id a + orderedQty id b := by
  induction a with
  | nil => simp [orderedQty]
  | cons l ls ih => simp [orderedQty, ih, add_assoc]

theorem orderedQtyAll_append (id : Nat) (a b : List Order) :
    orderedQtyAll id (a ++ b) = orderedQtyAll id a + orderedQtyAll id b := by
  induction a with
  | nil => simp [orderedQtyAll]
  | cons l ls ih => simp [orderedQtyAll, ih, add_assoc]

theorem linesTotal_append (a b : List OrderItem) :
    linesTotal (a ++ b) = linesTotal a + linesTotal b := by
  induction a with
  | nil => simp [linesTotal]
  | cons l ls ih => simp [linesTotal, ih, add_assoc]

/-! ### The loop over the cart -/

/-- A loop that reaches its end has passed every check of its first line. -/
theorem processItems_ok_cons {f : Faults} {i : Nat} {item : CartLine} {rest : List CartLine}
    {s : Session} {acc : List OrderItem} {t : Int} {res : Session × List OrderItem × Int}
    (h : processItems f i (item :: rest) s acc t = .ok res) :
    ∃ id m qty, item.itemId = .oid id ∧ f.find i = false ∧
      findMenuItem id s.working.menuItems = some m ∧ m.isActive = true ∧
      item.qty = some qty ∧ qty ≤ m.availableStock ∧
      validMenuItem { m with availableStock := m.availableStock - qty } = true ∧
      f.save i = false ∧
      processItems f (i + 1) rest
        { s with working :=
            { s.working with
              menuItems :=
                saveMenuItem { m with availableStock := m.availableStock - qty }
                  s.working.menuItems } }
        (acc ++ [⟨m._id, m.name, m.price, qty⟩]) (t + m.price * qty) = .ok res := by
  unfold processItems at h
  split at h
  · exact absurd h (by simp)
  · rename_i id hid
    split at h
    · exact absurd h (by simp)
    · rename_i hfind
      split at h
      · exact absurd h (by simp)
      · rename_i m hm
        split at h
        · exact absurd h (by simp)
        · rename_i hact
          split at h
          · exact absurd h (by simp)
          · rename_i qty hq
            split at h
            · exact absurd h (by simp)
            · rename_i hlt
              simp only at h
              split at h
              · exact absurd h (by simp)
              · rename_i hv
                split at h
                · exact absurd h (by simp)
                · rename_i hsave
                  refine ⟨id, m, qty, hid, by simpa using hfind, hm, by simpa using hact, hq,
                    by omega, by simpa using hv, by simpa using hsave, h⟩

/-- Every abort inside the loop gives back the committed database, and the response that
goes with it is a failure. -/
theorem processItems_error {f : Faults} {items : List CartLine} :
    ∀ {i : Nat} {s : Session} {acc : List OrderItem} {t : Int} {db : DB} {r : Response},
      processItems f i items s acc t = .error (db, r) →
        db = s.committed ∧ r.success = false := by
  induction items with
  | nil => intro i s acc t db r h; simp [processItems] at h
  | cons item rest ih =>
    intro i s acc t db r h
    unfold processItems at h
    split at h
    · cases h; exact ⟨rfl, rfl⟩
    · split at h
      · cases h; exact ⟨rfl, rfl⟩
      · split at h
        · cases h; exact ⟨rfl, rfl⟩
        · split at h
          · cases h; exact ⟨rfl, rfl⟩
          · split at h
            · cases h; exact ⟨rfl, rfl⟩
            · split at h
              · cases h; exact ⟨rfl, rfl⟩
              · simp only at h
                split at h
                · cases h; exact ⟨rfl, rfl⟩
                · split at h
                  · cases h; exact ⟨rfl, rfl⟩
                  · have hcommitted := ih h
                    exact hcommitted

/-- The loop writes menu items only, and only to the working copy. -/
theorem processItems_frame {f : Faults} {items : List CartLine} :
    ∀ {i : Nat} {s : Session} {acc : List OrderItem} {t : Int}
      {res : Session × List OrderItem × Int},
      processItems f i items s acc t = .ok res →
        res.1.committed = s.committed ∧ res.1.working.orders = s.working.orders ∧
          res.1.working.counters = s.working.counters ∧
          res.1.working.users = s.working.users := by
  induction items with
  | nil =>
    intro i s acc t res h
    simp only [processItems, Except.ok.injEq] at h
    subst h
    exact ⟨rfl, rfl, rfl, rfl⟩
  | cons item rest ih =>
    intro i s acc t res h
    obtain ⟨id, m, qty, -, -, -, -, -, -, -, -, hrest⟩ := processItems_ok_cons h
    have hframe := ih hrest
    exact hframe

theorem stockOf_save {x m : MenuItem} {menu : List MenuItem}
    (h : findMenuItem x._id menu = some m) (id : Nat) :
    stockOf id (saveMenuItem x menu)
      = if id = x._id then some x.availableStock else stockOf id menu := by
  unfold stockOf
  rw [findMenuItem_save h]
  split <;> rfl

/-- What the loop has done when it reaches its end: the order lines it added are the cart
lines in cart order, with the name and the price of the catalog, the total has grown by
their sum, and every stock has dropped by the quantity the added lines hold of the item. -/
theorem processItems_lines {f : Faults} {items : List CartLine} :
    ∀ {i : Nat} {s : Session} {acc : List OrderItem} {t : Int}
      {res : Session × List OrderItem × Int},
      processItems f i items s acc t = .ok res →
        ∃ lines : List OrderItem, res.2.1 = acc ++ lines ∧
          res.2.2 = t + linesTotal lines ∧
          lines.map (fun l => (IdArg.oid l.itemId, some l.qty))
            = items.map (fun c => (c.itemId, c.qty)) ∧
          (∀ id, stockOf id res.1.working.menuItems
            = (stockOf id s.working.menuItems).map (fun x => x - orderedQty id lines)) ∧
          (∀ l ∈ lines, ∃ m, findMenuItem l.itemId s.working.menuItems = some m ∧
            m.price = l.price ∧ m.name = l.name) := by
  induction items with
  | nil =>
    intro i s acc t res h
    simp only [processItems, Except.ok.injEq] at h
    subst h
    refine ⟨[], by simp, by simp [linesTotal], rfl, ?_, by simp⟩
    intro id
    cases hst : stockOf id s.working.menuItems <;> simp [orderedQty]
  | cons item rest ih =>
    intro i s acc t res h
    obtain ⟨id0, m, qty, hid, -, hm, -, hq, -, -, -, hrest⟩ := processItems_ok_cons h
    have hmid : m._id = id0 := findMenuItem_id hm
    have hm' : findMenuItem
        ({ m with availableStock := m.availableStock - qty } : MenuItem)._id
        s.working.menuItems = some m := by
      show findMenuItem m._id s.working.menuItems = some m
      rw [hmid]; exact hm
    obtain ⟨lines, hacc, htot, hcart, hstock, hprice⟩ := ih hrest
    refine ⟨⟨m._id, m.name, m.price, qty⟩ :: lines, ?_, ?_, ?_, ?_, ?_⟩
    · rw [hacc]; simp
    · rw [htot]; simp only [linesTotal]; ring
    · simp only [List.map_cons, hcart, hid, hq, hmid]
    · intro id
      rw [hstock id]
      show Option.map _ (stockOf id (saveMenuItem _ s.working.menuItems)) = _
      rw [stockOf_save hm' id]
      show Option.map _ (if id = m._id then _ else _) = _
      by_cases hi : id = m._id
      · subst hi
        have hs : stockOf m._id s.working.menuItems = some m.availableStock := by
          unfold stockOf; rw [hmid, hm]; rfl
        simp only [if_true, hs, Option.map_some', orderedQty]
        congr 1
        ring
      · have hi' : ¬ m._id = id := fun e => hi e.symm
        simp only [hi, if_false, orderedQty, hi', zero_add]
    · intro l hl
      rcases List.mem_cons.mp hl with hl | hl
      · subst hl
        exact ⟨m, by show findMenuItem m._id _ = _; rw [hmid]; exact hm, rfl, rfl⟩
      · obtain ⟨m1, hm1, hp, hn⟩ := hprice l hl
        have hm1' : findMenuItem l.itemId
            (saveMenuItem { m with availableStock := m.availableStock - qty }
              s.working.menuItems) = some m1 := hm1
        rw [findMenuItem_save hm'] at hm1'
        by_cases hi : l.itemId = m._id
        · have hi2 : l.itemId
              = ({ m with availableStock := m.availableStock - qty } : MenuItem)._id := hi
          rw [if_pos hi2] at hm1'
          cases hm1'
          exact ⟨m, by rw [hi, hmid]; exact hm, hp, hn⟩
        · have hi2 : ¬ l.itemId
              = ({ m with availableStock := m.availableStock - qty } : MenuItem)._id := hi
          rw [if_neg hi2] at hm1'
          exact ⟨m1, hm1', hp, hn⟩

/-- The loop keeps every stock non-negative. -/
theorem processItems_nonneg {f : Faults} {items : List CartLine} :
    ∀ {i : Nat} {s : Session} {acc : List OrderItem} {t : Int}
      {res : Session × List OrderItem × Int},
      processItems f i items s acc t = .ok res →
        (∀ m ∈ s.working.menuItems, 0 ≤ m.availableStock) →
          ∀ m ∈ res.1.working.menuItems, 0 ≤ m.availableStock := by
  induction items with
  | nil =>
    intro i s acc t res h hs
    simp only [processItems, Except.ok.injEq] at h
    subst h
    exact hs
  | cons item rest ih =>
    intro i s acc t res h hs
    obtain ⟨id0, m, qty, -, -, -, -, -, hle, -, -, hrest⟩ := processItems_ok_cons h
    refine ih hrest ?_
    intro m1 hm1
    rcases mem_saveMenuItem hm1 with h1 | h1
    · subst h1
      show 0 ≤ m.availableStock - qty
      omega
    · exact hs m1 h1

/-- The loop over a cart whose first lines pass goes on with the lines behind them. -/
theorem processItems_append {f : Faults} {pre : List CartLine} (rest : List CartLine) :
    ∀ {i : Nat} {s : Session} {acc : List OrderItem} {t : Int}
      {res : Session × List OrderItem × Int},
      processItems f i pre s acc t = .ok res →
        processItems f i (pre ++ rest) s acc t
          = processItems f (i + pre.length) rest res.1 res.2.1 res.2.2 := by
  induction pre with
  | nil =>
    intro i s acc t res h
    simp only [processItems, Except.ok.injEq] at h
    subst h
    rfl
  | cons item pre ih =>
    intro i s acc t res h
    obtain ⟨id, m, qty, hid, hf, hm, hact, hq, hle, hv, hs, hrest⟩ := processItems_ok_cons h
    have hlt : ¬ m.availableStock < qty := by omega
    have hgo := ih hrest
    rw [List.cons_append, processItems]
    have hact1 : (!m.isActive) = false := by rw [hact]; rfl
    simp only [hid, hf, hm, hact1, hq, hlt, hv, hs, Bool.not_true, Bool.false_eq_true, if_false]
    have hidx : i + 1 + pre.length = i + (item :: pre).length := by
      simp only [List.length_cons]; omega
    rw [hidx] at hgo
    exact hgo

/-! ### The transaction of createOrder -/

/-- Every abort of the transaction gives back the database of before the call, and the
response that goes with it is not a success. -/
theorem createOrderTxn_error {f : Faults} {db db1 : DB} {req : CreateRequest} {r : Response}
    (h : createOrderTxn f db req = .error (db1, r)) : db1 = db ∧ r.success = false := by
  unfold createOrderTxn at h
  simp only at h
  split at h
  · cases h; exact ⟨rfl, rfl⟩
  · cases h; exact ⟨rfl, rfl⟩
  · split at h
    · rename_i e he
      cases h
      exact processItems_error he
    · rename_i s1 orderItems totalAmount hp
      have hfr := processItems_frame hp
      have hc : s1.committed = db := hfr.1
      split at h
      · cases h; exact ⟨hc, rfl⟩
      · split at h
        · cases h; exact ⟨hc, rfl⟩
        · split at h
          · cases h; exact ⟨hc, rfl⟩
          · split at h
            · cases h; exact ⟨hc, rfl⟩
            · split at h
              · cases h; exact ⟨hc, rfl⟩
              · cases h

/-- A transaction that commits has run the loop to its end, and the committed database holds
the menu items as the loop left them, the incremented counter and the new order. -/
theorem createOrderTxn_ok {f : Faults} {db db1 : DB} {req : CreateRequest} {order : Order}
    (h : createOrderTxn f db req = .ok (db1, order)) :
    ∃ cart s1 lines total, req.items = some cart ∧ cart ≠ [] ∧
      processItems f 0 cart (startTransaction db) [] 0 = .ok (s1, lines, total) ∧
      f.sequence = false ∧ f.create = false ∧ f.commit = false ∧
      order =
        { _id := freshOrderId db.orders
          userId := req.userId
          orderToken := orderTokenOf (getNextSequence "orderToken" db.counters).1
          items := lines
          paymentMode := paymentModeOrDefault req.paymentMode
          totalAmount := total
          status := some "Placed"
          statusHistory := [⟨some "Placed"⟩] } ∧
      validOrder { order with statusHistory := [] } = true ∧
      order.orderToken ∉ db.orders.map (fun o => o.orderToken) ∧
      db1 =
        { menuItems := s1.working.menuItems
          orders := db.orders ++ [order]
          counters := (getNextSequence "orderToken" db.counters).2
          users := db.users } := by
  unfold createOrderTxn at h
  simp only at h
  split at h
  · cases h
  · cases h
  · rename_i item rest hitems
    split at h
    · cases h
    · rename_i s1 orderItems totalAmount hp
      obtain ⟨-, ho, hcn, hu⟩ := processItems_frame hp
      have ho : s1.working.orders = db.orders := ho
      have hcn : s1.working.counters = db.counters := hcn
      have hu : s1.working.users = db.users := hu
      split at h
      · cases h
      · rename_i hseq
        split at h
        · cases h
        · rename_i hvalid
          split at h
          · cases h
          · rename_i hdup
            split at h
            · cases h
            · rename_i hcreate
              split at h
              · cases h
              · rename_i hcommit
                simp only [Except.ok.injEq, Prod.mk.injEq] at h
                obtain ⟨hdb, hord⟩ := h
                have hord2 : order =
                    { _id := freshOrderId db.orders
                      userId := req.userId
                      orderToken := orderTokenOf (getNextSequence "orderToken" db.counters).1
                      items := orderItems
                      paymentMode := paymentModeOrDefault req.paymentMode
                      totalAmount := totalAmount
                      status := some "Placed"
                      statusHistory := [⟨some "Placed"⟩] } := by
                  rw [← hord]
                  simp [preSave, newOrder, ho, hcn]
                refine ⟨item :: rest, s1, orderItems, totalAmount, hitems, by simp, hp,
                  by simpa using hseq, by simpa using hcreate, by simpa using hcommit,
                  hord2, ?_, ?_, ?_⟩
                · rw [hord2]
                  simpa [newOrder, ho, hcn] using hvalid
                · rw [hord2]
                  simpa [ho, hcn] using hdup
                · rw [← hdb, ← hord]
                  simp [commitTransaction, preSave, newOrder, ho, hcn, hu]

/-- An abort inside the loop is the result of the transaction. -/
theorem createOrderTxn_of_loop_error {f : Faults} {db : DB} {req : CreateRequest}
    {cart : List CartLine} {e : DB × Response} (hitems : req.items = some cart)
    (h : processItems f 0 cart (startTransaction db) [] 0 = .error e) :
    createOrderTxn f db req = .error e := by
  cases cart with
  | nil => simp [processItems] at h
  | cons item rest =>
    unfold createOrderTxn
    simp only [hitems, h]

/-- A committed transaction commits as well with any other payment mode of the `enum`: the
order differs in `paymentMode` only. -/
theorem createOrderTxn_paymentMode {f : Faults} {db db1 : DB} {req : CreateRequest}
    {order : Order} (mode : Option String)
    (h : createOrderTxn f db req = .ok (db1, order))
    (hmode : paymentModeOrDefault mode ∈ paymentModeEnum) :
    createOrderTxn f db { req with paymentMode := mode }
      = .ok ({ db1 with
                orders := db.orders ++ [{ order with paymentMode := paymentModeOrDefault mode }] },
              { order with paymentMode := paymentModeOrDefault mode }) := by
  obtain ⟨cart, s1, lines, total, hitems, hne, hp, hseq, hcreate, hcommit, hord, hvalid,
    hnew, hdb⟩ := createOrderTxn_ok h
  obtain ⟨-, ho, hcn, hu⟩ := processItems_frame hp
  have ho : s1.working.orders = db.orders := ho
  have hcn : s1.working.counters = db.counters := hcn
  have hu : s1.working.users = db.users := hu
  cases cart with
  | nil => exact absurd rfl hne
  | cons item rest =>
    have hvalid2 : validOrder
        { _id := freshOrderId db.orders
          userId := req.userId
          orderToken := orderTokenOf (getNextSequence "orderToken" db.counters).1
          items := lines
          paymentMode := paymentModeOrDefault mode
          totalAmount := total
          status := some "Placed"
          statusHistory := [] } = true := by
      rw [hord] at hvalid
      simp only [validOrder, Bool.and_eq_true, decide_eq_true_eq] at hvalid ⊢
      exact ⟨⟨⟨⟨⟨hvalid.1.1.1.1.1, hvalid.1.1.1.1.2⟩, hvalid.1.1.1.2⟩, hmode⟩, hvalid.1.2⟩,
        hvalid.2⟩
    have hnew2 : orderTokenOf (getNextSequence "orderToken" db.counters).1
        ∉ db.orders.map (fun o => o.orderToken) := by
      rw [hord] at hnew; exact hnew
    unfold createOrderTxn
    simp only [hitems, hp, hseq, hcreate, hcommit, newOrder, ho, hcn, hu, hvalid2, hnew2,
      preSave, commitTransaction, Bool.not_true, Bool.false_eq_true, if_false, if_true]
    rw [hdb, hord]
    rfl

/-! ### Reading the new order back -/

theorem lt_freshOrderId {os : List Order} {o : Order} (h : o ∈ os) :
    o._id < freshOrderId os := by
  unfold freshOrderId
  induction os with
  | nil => simp at h
  | cons a as ih =>
    simp only [List.map_cons, List.foldr_cons]
    rcases List.mem_cons.mp h with h | h
    · subst h
      omega
    · have := ih h
      omega

theorem findOrder_append_new {os : List Order} {o : Order}
    (h : ∀ a ∈ os, a._id ≠ o._id) : findOrder o._id (os ++ [o]) = some o := by
  induction os with
  | nil => simp [findOrder]
  | cons a as ih =>
    have ha : ¬ a._id = o._id := h a (List.mem_cons_self _ _)
    simp only [List.cons_append, findOrder, ha, if_false]
    exact ih (fun b hb => h b (List.mem_cons_of_mem _ hb))

theorem findOrder_fresh {os : List Order} {o : Order} (h : o._id = freshOrderId os) :
    findOrder o._id (os ++ [o]) = some o := by
  apply findOrder_append_new
  intro a ha
  have := lt_freshOrderId ha
  omega

/-- A read changes nothing of an order that is stored with a status. -/
theorem hydrate_of_status {o : Order} {status : String} (h : o.status = some status) :
    hydrate o = o := by
  cases o
  simp only at h
  subst h
  rfl

/-- The outcome of `createOrder` when the transaction aborts. -/
theorem createOrder_of_error {f : Faults} {db db1 : DB} {req : CreateRequest} {r : Response}
    (h : createOrderTxn f db req = .error (db1, r)) :
    createOrder f db req = ⟨db, r, []⟩ := by
  have hdb := (createOrderTxn_error h).1
  subst hdb
  simp [createOrder, h]

/-- The database after `createOrder` is the committed one, also when a later step throws. -/
theorem createOrder_db_of_ok {f : Faults} {db db1 : DB} {req : CreateRequest} {order : Order}
    (h : createOrderTxn f db req = .ok (db1, order)) :
    (createOrder f db req).db = db1 := by
  simp only [createOrder, h]
  split
  · rfl
  · split
    · split <;> rfl
    · rfl

/-- A `createOrder` that answers with success has committed its transaction, and the answer
carries the created order as it is stored. -/
theorem createOrder_ok {f : Faults} {db : DB} {req : CreateRequest} {code : Nat}
    {data : Option PopulatedOrder} (h : (createOrder f db req).response = .ok code data) :
    ∃ db1 order, createOrderTxn f db req = .ok (db1, order) ∧
      (createOrder f db req).db = db1 ∧ code = 201 ∧
      data = some (populate db1.users order) ∧ f.populate = false := by
  cases htx : createOrderTxn f db req with
  | error e =>
    obtain ⟨db1, r⟩ := e
    have hr := createOrder_of_error htx
    have hfail := (createOrderTxn_error htx).2
    rw [hr] at h
    simp only at h
    rw [h] at hfail
    cases hfail
  | ok res =>
    obtain ⟨db1, order⟩ := res
    obtain ⟨cart, s1, lines, total, -, -, -, -, -, -, hord, -, -, hdb⟩ := createOrderTxn_ok htx
    have hfind : findOrder order._id db1.orders = some order := by
      rw [hdb]
      exact findOrder_fresh (by rw [hord])
    have hhyd : hydrate order = order := hydrate_of_status (by rw [hord])
    refine ⟨db1, order, rfl, createOrder_db_of_ok htx, ?_⟩
    simp only [createOrder, htx, hfind, Option.map_some', hhyd] at h
    split at h
    · cases h
    · rename_i hpop
      split at h
      · split at h
        · cases h
        · cases h
          exact ⟨rfl, rfl, by simpa using hpop⟩
      · cases h
        exact ⟨rfl, rfl, by simpa using hpop⟩

/-! ### One call of createOrder -/

/-- One `createOrder` appends the orders it creates, lowers every stock by the quantity those
orders hold of the item, and keeps non-negative stocks non-negative. -/
theorem createOrder_step (f : Faults) (db : DB) (req : CreateRequest) :
    ∃ created : List Order,
      (createOrder f db req).db.orders = db.orders ++ created ∧
      (∀ id, stockOf id (createOrder f db req).db.menuItems
        = (stockOf id db.menuItems).map (fun x => x - orderedQtyAll id created)) ∧
      ((∀ m ∈ db.menuItems, 0 ≤ m.availableStock) →
        ∀ m ∈ (createOrder f db req).db.menuItems, 0 ≤ m.availableStock) := by
  cases htx : createOrderTxn f db req with
  | error e =>
    obtain ⟨db1, r⟩ := e
    rw [createOrder_of_error htx]
    refine ⟨[], by simp, ?_, fun h => h⟩
    intro id
    cases stockOf id db.menuItems <;> simp [orderedQtyAll]
  | ok res =>
    obtain ⟨db1, order⟩ := res
    rw [createOrder_db_of_ok htx]
    obtain ⟨cart, s1, lines, total, -, -, hp, -, -, -, hord, -, -, hdb⟩ := createOrderTxn_ok htx
    obtain ⟨lines1, hacc, -, -, hstock, -⟩ := processItems_lines hp
    have hl : lines = lines1 := by simpa using hacc
    subst hl
    refine ⟨[order], by rw [hdb], ?_, ?_⟩
    · intro id
      rw [hdb]
      have := hstock id
      simp only [orderedQtyAll, add_zero]
      rw [hord]
      exact this
    · intro hs
      rw [hdb]
      exact processItems_nonneg hp hs

theorem option_map_sub_sub (x : Option Int) (a b : Int) :
    (x.map (fun v => v - a)).map (fun v => v - b) = x.map (fun v => v - (a + b)) := by
  cases x with
  | none => rfl
  | some v => simp only [Option.map_some']; congr 1; ring

/-- A `createOrder` whose response has the success flag has committed its transaction. -/
theorem createOrder_success {f : Faults} {db : DB} {req : CreateRequest}
    (h : (createOrder f db req).response.success = true) :
    ∃ db1 order, createOrderTxn f db req = .ok (db1, order) ∧
      (createOrder f db req).db = db1 ∧
      (createOrder f db req).response = .ok 201 (some (populate db1.users order)) := by
  cases hr : (createOrder f db req).response with
  | fail c msg => rw [hr] at h; cases h
  | caught e => rw [hr] at h; cases h
  | unanswered => rw [hr] at h; cases h
  | ok code data =>
    obtain ⟨db1, order, htx, hdb, hcode, hdata, -⟩ := createOrder_ok hr
    exact ⟨db1, order, htx, hdb, by rw [hcode, hdata]⟩

theorem orderedQty_eq_zero {id : Nat} {ls : List OrderItem} (h : ∀ l ∈ ls, l.itemId ≠ id) :
    orderedQty id ls = 0 := by
  induction ls with
  | nil => rfl
  | cons l ls ih =>
    have h1 : ¬ l.itemId = id := h l (List.mem_cons_self _ _)
    simp only [orderedQty, h1, if_false, zero_add]
    exact ih (fun a ha => h a (List.mem_cons_of_mem _ ha))

/-- An item no line of the cart refers to keeps its stock. -/
theorem createOrder_unreferenced (f : Faults) (db : DB) (req : CreateRequest) (id : Nat)
    (h : ∀ cart, req.items = some cart → ∀ line ∈ cart, line.itemId ≠ .oid id) :
    stockOf id (createOrder f db req).db.menuItems = stockOf id db.menuItems := by
  cases htx : createOrderTxn f db req with
  | error e =>
    obtain ⟨db1, r⟩ := e
    rw [createOrder_of_error htx]
  | ok res =>
    obtain ⟨db1, order⟩ := res
    rw [createOrder_db_of_ok htx]
    obtain ⟨cart, s1, lines, total, hitems, -, hp, -, -, -, -, -, -, hdb⟩ :=
      createOrderTxn_ok htx
    obtain ⟨lines1, -, -, hcart, hstock, -⟩ := processItems_lines hp
    have hzero : orderedQty id lines1 = 0 := by
      apply orderedQty_eq_zero
      intro l hl hlid
      have hmem : (IdArg.oid l.itemId, some l.qty)
          ∈ lines1.map (fun l => (IdArg.oid l.itemId, some l.qty)) :=
        List.mem_map.mpr ⟨l, hl, rfl⟩
      rw [hcart] at hmem
      obtain ⟨c, hc, hce⟩ := List.mem_map.mp hmem
      have hcid : c.itemId = IdArg.oid l.itemId := congrArg Prod.fst hce
      exact h cart hitems c hc (by rw [hcid, hlid])
    rw [hdb]
    have := hstock id
    rw [hzero] at this
    rw [this]
    show Option.map _ (stockOf id db.menuItems) = _
    cases stockOf id db.menuItems <;> simp

/-- The accounting of a sequence of `createOrder` calls. -/
theorem placeAll_accounting (calls : List (Faults × CreateRequest)) :
    ∀ db : DB, ∃ created : List Order,
      (placeAll db calls).orders = db.orders ++ created ∧
      (∀ id, stockOf id (placeAll db calls).menuItems
        = (stockOf id db.menuItems).map (fun x => x - orderedQtyAll id created)) ∧
      (∀ id, (∀ c ∈ calls, ∀ cart, c.2.items = some cart →
          ∀ line ∈ cart, line.itemId ≠ .oid id) →
        stockOf id (placeAll db calls).menuItems = stockOf id db.menuItems) ∧
      ((∀ m ∈ db.menuItems, 0 ≤ m.availableStock) →
        ∀ m ∈ (placeAll db calls).menuItems, 0 ≤ m.availableStock) := by
  induction calls with
  | nil =>
    intro db
    refine ⟨[], by simp [placeAll], ?_, fun _ _ => rfl, fun h => h⟩
    intro id
    show stockOf id db.menuItems = _
    cases stockOf id db.menuItems <;> simp [orderedQtyAll]
  | cons c cs ih =>
    intro db
    obtain ⟨created1, ho1, hs1, hn1⟩ := createOrder_step c.1 db c.2
    obtain ⟨created2, ho2, hs2, hu2, hn2⟩ := ih (createOrder c.1 db c.2).db
    refine ⟨created1 ++ created2, ?_, ?_, ?_, ?_⟩
    · show (placeAll (createOrder c.1 db c.2).db cs).orders = _
      rw [ho2, ho1, List.append_assoc]
    · intro id
      show stockOf id (placeAll (createOrder c.1 db c.2).db cs).menuItems = _
      rw [hs2 id, hs1 id, option_map_sub_sub, orderedQtyAll_append]
    · intro id hun
      show stockOf id (placeAll (createOrder c.1 db c.2).db cs).menuItems = _
      rw [hu2 id (fun c1 hc1 => hun c1 (List.mem_cons_of_mem _ hc1))]
      exact createOrder_unreferenced c.1 db c.2 id (hun c (List.mem_cons_self _ _))
    · intro hs
      exact hn2 (hn1 hs)

/-- Order lines for the same items and quantities, priced by the same catalog, have the same
total. -/
theorem linesTotal_congr {menu : List MenuItem} :
    ∀ {a b : List OrderItem},
      a.map (fun l => (IdArg.oid l.itemId, some l.qty))
        = b.map (fun l => (IdArg.oid l.itemId, some l.qty)) →
      (∀ l ∈ a, ∃ m, findMenuItem l.itemId menu = some m ∧ m.price = l.price) →
      (∀ l ∈ b, ∃ m, findMenuItem l.itemId menu = some m ∧ m.price = l.price) →
      linesTotal a = linesTotal b := by
  intro a
  induction a with
  | nil =>
    intro b hab _ _
    cases b with
    | nil => rfl
    | cons y ys => simp at hab
  | cons x xs ih =>
    intro b hab ha hb
    cases b with
    | nil => simp at hab
    | cons y ys =>
      simp only [List.map_cons, List.cons.injEq, Prod.mk.injEq, IdArg.oid.injEq,
        Option.some.injEq] at hab
      obtain ⟨⟨hid, hqty⟩, htail⟩ := hab
      obtain ⟨mx, hmx, hpx⟩ := ha x (List.mem_cons_self _ _)
      obtain ⟨my, hmy, hpy⟩ := hb y (List.mem_cons_self _ _)
      rw [hid, hmy] at hmx
      cases hmx
      have hrest := ih htail (fun l hl => ha l (List.mem_cons_of_mem _ hl))
        (fun l hl => hb l (List.mem_cons_of_mem _ hl))
      simp only [linesTotal, hrest, ← hpx, ← hpy, hqty]

/-- A `createOrder` after which one more order is stored has committed that order. -/
theorem createOrder_of_stored {f : Faults} {db : DB} {req : CreateRequest} {order : Order}
    (h : (createOrder f db req).db.orders = db.orders ++ [order]) :
    ∃ db1, createOrderTxn f db req = .ok (db1, order) := by
  cases htx : createOrderTxn f db req with
  | error e =>
    obtain ⟨db1, r⟩ := e
    rw [createOrder_of_error htx] at h
    have hlen := congrArg List.length h
    simp at hlen
  | ok res =>
    obtain ⟨db1, order1⟩ := res
    rw [createOrder_db_of_ok htx] at h
    obtain ⟨cart, s1, lines, total, -, -, -, -, -, -, -, -, -, hdb⟩ := createOrderTxn_ok htx
    rw [hdb] at h
    have h1 : [order1] = [order] := List.append_cancel_left h
    cases h1
    exact ⟨db1, rfl⟩

/-! ### The token counter -/

theorem seqOf_findOneAndUpdateInc (name other : String) (cs : List Counter) :
    (findOneAndUpdateInc name cs).1.seq = (seqOf name cs).getD 0 + 1 ∧
      seqOf other (findOneAndUpdateInc name cs).2
        = if other = name then some ((seqOf name cs).getD 0 + 1) else seqOf other cs := by
  induction cs with
  | nil =>
    by_cases h : other = name
    · simp [findOneAndUpdateInc, seqOf, h]
    · have h' : ¬ name = other := fun e => h e.symm
      simp [findOneAndUpdateInc, seqOf, h, h']
  | cons c cs ih =>
    by_cases hc : c.name = name
    · by_cases h : other = name
      · simp [findOneAndUpdateInc, seqOf, hc, h]
      · have h' : ¬ name = other := fun e => h e.symm
        simp [findOneAndUpdateInc, seqOf, hc, h, h']
    · by_cases h : other = name
      · subst h
        have h2 := ih.2
        simp only [if_true] at h2
        simp only [findOneAndUpdateInc, hc, if_false, seqOf, ih.1, h2, if_true, and_self]
      · by_cases hco : c.name = other
        · simp [findOneAndUpdateInc, seqOf, hc, hco, h, ih.1]
        · simp only [findOneAndUpdateInc, hc, if_false, seqOf, hco, ih.1, ih.2, h, and_self]

theorem issued_eq_range (name : String) (calls : List String) :
    ∀ cs : List Counter,
      issued name cs calls = List.range' ((seqOf name cs).getD 0 + 1) (calls.count name) := by
  induction calls with
  | nil => intro cs; simp [issued]
  | cons n ns ih =>
    intro cs
    by_cases h : n = name
    · subst h
      have h1 := (seqOf_findOneAndUpdateInc n n cs).1
      have h2 := (seqOf_findOneAndUpdateInc n n cs).2
      simp only [if_true] at h2
      simp only [issued, if_true, List.count_cons_self, List.range'_succ, ih,
        getNextSequence, h1, h2, Option.getD_some]
    · have h2 := (seqOf_findOneAndUpdateInc n name cs).2
      have h' : ¬ name = n := fun e => h e.symm
      simp only [h', if_false] at h2
      have hc : List.count name (n :: ns) = List.count name ns := by
        simp [List.count_cons, h]
      simp only [issued, h, if_false, ih, getNextSequence, h2, hc]

/-! ### Stored orders -/

theorem findOrder_id {id : Nat} {os : List Order} {o : Order}
    (h : findOrder id os = some o) : o._id = id := by
  induction os with
  | nil => simp [findOrder] at h
  | cons a as ih =>
    unfold findOrder at h
    split at h
    · rename_i ha
      cases h
      exact ha
    · exact ih h

theorem findOrder_mem {id : Nat} {os : List Order} {o : Order}
    (h : findOrder id os = some o) : o ∈ os := by
  induction os with
  | nil => simp [findOrder] at h
  | cons a as ih =>
    unfold findOrder at h
    split at h
    · cases h
      exact List.mem_cons_self _ _
    · exact List.mem_cons_of_mem _ (ih h)

theorem findOrder_save {x o : Order} {os : List Order}
    (h : findOrder x._id os = some o) : findOrder x._id (saveOrder x os) = some x := by
  induction os with
  | nil => simp [findOrder] at h
  | cons a as ih =>
    unfold findOrder at h
    by_cases ha : a._id = x._id
    · simp [saveOrder, ha, findOrder]
    · simp only [ha, if_false] at h
      simp only [saveOrder, ha, if_false, findOrder]
      exact ih h

theorem saveOrder_tokens {x o : Order} {os : List Order}
    (h : findOrder x._id os = some o) (ht : x.orderToken = o.orderToken) :
    (saveOrder x os).map (fun a => a.orderToken) = os.map (fun a => a.orderToken) := by
  induction os with
  | nil => rfl
  | cons a as ih =>
    unfold findOrder at h
    by_cases ha : a._id = x._id
    · simp only [ha, if_true, Option.some.injEq] at h
      subst h
      simp [saveOrder, ha, ht]
    · simp only [ha, if_false] at h
      simp only [saveOrder, ha, if_false, List.map_cons, ih h]

/-! ### One call of updateOrderStatus -/

/-- The database after `updateOrderStatus` once the order is found, valid and saved: only the
stored order changes, also when a later step throws. -/
theorem updateOrderStatus_db_of_saved {f : Faults} {db : DB} {req : StatusRequest} {id : Nat}
    {stored : Order} (hid : req.id = .oid id) (hf : f.find 0 = false)
    (hfind : findOrder id db.orders = some stored)
    (hvalid : validOrder (updateStatus stored req.status) = true) (hs : f.save 0 = false) :
    (updateOrderStatus f db req).db
      = { db with orders := saveOrder (updateStatus stored req.status) db.orders } := by
  have hpre : preSave false (updateStatus stored req.status)
      = updateStatus stored req.status := rfl
  unfold updateOrderStatus
  simp only [hid, hf, hfind, hpre, hvalid, hs, Bool.not_true, Bool.false_eq_true, if_false]
  split
  · rfl
  · split
    · split <;> rfl
    · rfl

/-- The database after a rejected `updateOrderStatus` is the one of before the call. -/
theorem updateOrderStatus_of_invalid {f : Faults} {db : DB} {req : StatusRequest} {id : Nat}
    {stored : Order} (hid : req.id = .oid id) (hf : f.find 0 = false)
    (hfind : findOrder id db.orders = some stored)
    (hvalid : validOrder (updateStatus stored req.status) = false) :
    updateOrderStatus f db req = ⟨db, .caught .validation, []⟩ := by
  simp [updateOrderStatus, hid, hf, hfind, preSave, hvalid]

/-- What `updateOrderStatus` has done in every case: nothing, or the save of one order. -/
theorem updateOrderStatus_db (f : Faults) (db : DB) (req : StatusRequest) :
    ((updateOrderStatus f db req).db = db ∧ (updateOrderStatus f db req).response.success = false)
      ∨ ∃ id stored, req.id = .oid id ∧ f.find 0 = false ∧
          findOrder id db.orders = some stored ∧
          validOrder (updateStatus stored req.status) = true ∧ f.save 0 = false ∧
          (updateOrderStatus f db req).db
            = { db with orders := saveOrder (updateStatus stored req.status) db.orders } := by
  cases hid : req.id with
  | malformed raw => left; simp [updateOrderStatus, hid, Response.success]
  | oid id =>
    cases hf : f.find 0 with
    | true => left; simp [updateOrderStatus, hid, hf, Response.success]
    | false =>
      cases hfind : findOrder id db.orders with
      | none => left; simp [updateOrderStatus, hid, hf, hfind, Response.success]
      | some stored =>
        cases hvalid : validOrder (updateStatus stored req.status) with
        | false =>
          left
          rw [updateOrderStatus_of_invalid hid hf hfind hvalid]
          exact ⟨rfl, rfl⟩
        | true =>
          cases hs : f.save 0 with
          | true =>
            left
            simp [updateOrderStatus, hid, hf, hfind, preSave, hvalid, hs, Response.success]
          | false =>
            right
            exact ⟨id, stored, rfl, rfl, hfind, hvalid, rfl,
              updateOrderStatus_db_of_saved hid hf hfind hvalid hs⟩

/-- An `updateOrderStatus` that answers with success has saved the order. -/
theorem updateOrderStatus_ok {f : Faults} {db : DB} {req : StatusRequest}
    (h : (updateOrderStatus f db req).response.success = true) :
    ∃ id stored, req.id = .oid id ∧ findOrder id db.orders = some stored ∧
      (updateOrderStatus f db req).db
        = { db with orders := saveOrder (updateStatus stored req.status) db.orders } := by
  rcases updateOrderStatus_db f db req with ⟨-, hfail⟩ | ⟨id, stored, hid, -, hfind, -, -, hdb⟩
  · rw [hfail] at h; cases h
  · exact ⟨id, stored, hid, hfind, hdb⟩

/-- A sequence of `updateOrderStatus` calls on one order that all answer with success
appends the requested statuses to the history of the order, one entry for each call, in the
order of the calls. -/
theorem statusAll_history (id : Nat) (calls : List (Faults × StatusRequest)) :
    ∀ (db : DB) (o : Order), findOrder id db.orders = some o →
      (∀ c ∈ calls, c.2.id = .oid id) → statusAllSucceed db calls = true →
      ∃ o1, findOrder id (statusAll db calls).orders = some o1 ∧
        o1.statusHistory = o.statusHistory ++ calls.map (fun c => ⟨c.2.status⟩) := by
  induction calls with
  | nil =>
    intro db o hfind _ _
    exact ⟨o, hfind, by simp⟩
  | cons c cs ih =>
    intro db o hfind hids hsucc
    simp only [statusAllSucceed, Bool.and_eq_true] at hsucc
    obtain ⟨hok, hrest⟩ := hsucc
    obtain ⟨id1, stored, hid1, hfind1, hdb⟩ := updateOrderStatus_ok hok
    have hcid := hids c (List.mem_cons_self _ _)
    rw [hcid] at hid1
    cases hid1
    rw [hfind] at hfind1
    cases hfind1
    have hoid : o._id = id := findOrder_id hfind
    have hfind2 : findOrder (updateStatus o c.2.status)._id db.orders = some o := by
      show findOrder o._id db.orders = some o
      rw [hoid]; exact hfind
    have hnext : findOrder id (updateOrderStatus c.1 db c.2).db.orders
        = some (updateStatus o c.2.status) := by
      rw [hdb]
      have := findOrder_save hfind2
      rw [show (updateStatus o c.2.status)._id = id from hoid] at this
      exact this
    obtain ⟨o1, ho1, hh⟩ :=
      ih (updateOrderStatus c.1 db c.2).db (updateStatus o c.2.status) hnext
        (fun c1 hc1 => hids c1 (List.mem_cons_of_mem _ hc1)) hrest
    refine ⟨o1, ho1, ?_⟩
    rw [hh]
    simp [updateStatus]

/-! ### Runs -/

/-- One request either leaves tokens and counter as they are, or stores one more order whose
token is built from the incremented counter and is not among the stored tokens. -/
theorem apply_tokens (op : Op) (db : DB) :
    ((op.apply db).db.orders.map (fun o => o.orderToken)
        = db.orders.map (fun o => o.orderToken) ∧
      tokenSeq (op.apply db).db = tokenSeq db) ∨
    ((op.apply db).db.orders.map (fun o => o.orderToken)
        = db.orders.map (fun o => o.orderToken) ++ [orderTokenOf (tokenSeq db + 1)] ∧
      tokenSeq (op.apply db).db = tokenSeq db + 1 ∧
      orderTokenOf (tokenSeq db + 1) ∉ db.orders.map (fun o => o.orderToken)) := by
  cases op with
  | create f req =>
    cases htx : createOrderTxn f db req with
    | error e =>
      obtain ⟨db1, r⟩ := e
      left
      simp [Op.apply, createOrder_of_error htx]
    | ok res =>
      obtain ⟨db1, order⟩ := res
      obtain ⟨cart, s1, lines, total, -, -, -, -, -, -, hord, -, hnew, hdb⟩ :=
        createOrderTxn_ok htx
      have h1 : (getNextSequence "orderToken" db.counters).1 = tokenSeq db + 1 :=
        (seqOf_findOneAndUpdateInc "orderToken" "orderToken" db.counters).1
      have h2 : seqOf "orderToken" (getNextSequence "orderToken" db.counters).2
          = some (tokenSeq db + 1) := by
        have := (seqOf_findOneAndUpdateInc "orderToken" "orderToken" db.counters).2
        simpa using this
      have htok : order.orderToken = orderTokenOf (tokenSeq db + 1) := by
        rw [hord, ← h1]
      right
      refine ⟨?_, ?_, ?_⟩
      · simp only [Op.apply, createOrder_db_of_ok htx]
        rw [hdb]
        simp [htok]
      · simp only [Op.apply, createOrder_db_of_ok htx]
        rw [hdb]
        simp [tokenSeq, h2]
      · rw [← htok]; exact hnew
  | status f req =>
    left
    rcases updateOrderStatus_db f db req with ⟨hdb, -⟩ | ⟨id, stored, -, -, hfind, -, -, hdb⟩
    · simp [Op.apply, hdb]
    · simp only [Op.apply, hdb, tokenSeq, and_true]
      have hfind2 : findOrder (updateStatus stored req.status)._id db.orders = some stored := by
        show findOrder stored._id db.orders = some stored
        rw [findOrder_id hfind]; exact hfind
      exact saveOrder_tokens hfind2 rfl

/-- Whatever is requested, the tokens of the stored orders stay as they are, in place; the
tokens added behind them are built from the consecutive values the counter takes, they are
pairwise distinct and none of them was stored before. -/
theorem run_tokens (ops : List Op) :
    ∀ db : DB, ∃ nums : List Nat,
      (run db ops).orders.map (fun o => o.orderToken)
        = db.orders.map (fun o => o.orderToken) ++ nums.map orderTokenOf ∧
      nums = List.range' (tokenSeq db + 1) nums.length ∧
      tokenSeq (run db ops) = tokenSeq db + nums.length ∧
      (nums.map orderTokenOf).Nodup ∧
      ∀ t ∈ nums.map orderTokenOf, t ∉ db.orders.map (fun o => o.orderToken) := by
  induction ops with
  | nil =>
    intro db
    exact ⟨[], by simp [run], by simp, by simp [run], List.nodup_nil, by simp⟩
  | cons op ops ih =>
    intro db
    obtain ⟨later, hlater, hrange, hseq, hlnd, hlfresh⟩ := ih (op.apply db).db
    rcases apply_tokens op db with ⟨htok, hsame⟩ | ⟨htok, hinc, hfresh⟩
    · refine ⟨later, ?_, ?_, ?_, hlnd, ?_⟩
      · show (run (op.apply db).db ops).orders.map _ = _
        rw [hlater, htok]
      · rw [hsame] at hrange; exact hrange
      · show tokenSeq (run (op.apply db).db ops) = _
        rw [hseq, hsame]
      · intro t ht
        rw [← htok]
        exact hlfresh t ht
    · refine ⟨(tokenSeq db + 1) :: later, ?_, ?_, ?_, ?_, ?_⟩
      · show (run (op.apply db).db ops).orders.map _ = _
        rw [hlater, htok]
        simp
      · rw [hinc] at hrange
        simp only [List.length_cons, List.range'_succ]
        rw [← hrange]
      · show tokenSeq (run (op.apply db).db ops) = _
        rw [hseq, hinc]
        simp only [List.length_cons]
        omega
      · simp only [List.map_cons, List.nodup_cons]
        refine ⟨?_, hlnd⟩
        intro hmem
        have := hlfresh _ hmem
        rw [htok] at this
        exact this (List.mem_append_right _ (List.mem_singleton_self _))
      · intro t ht hin
        simp only [List.map_cons, List.mem_cons] at ht
        rcases ht with ht | ht
        · rw [ht] at hin; exact hfresh hin
        · have := hlfresh t ht
          rw [htok] at this
          exact this (List.mem_append_left _ hin)

/-! ## The claims -/

/-- C1: starting from a catalog whose stocks are non-negative, after any sequence of
`createOrder` calls the orders created are appended to the stored orders, the stock of every
item is its initial stock minus the quantity the created orders hold of it, the stock of an
item no cart refers to is unchanged, and no stock is negative. -/
theorem createOrder_stock_accounting (db : DB) (calls : List (Faults × CreateRequest))
    (hstock : ∀ m ∈ db.menuItems, 0 ≤ m.availableStock) :
    ∃ created : List Order,
      (placeAll db calls).orders = db.orders ++ created ∧
      (∀ id, stockOf id (placeAll db calls).menuItems
        = (stockOf id db.menuItems).map (fun x => x - orderedQtyAll id created)) ∧
      (∀ id, (∀ c ∈ calls, ∀ cart, c.2.items = some cart →
          ∀ line ∈ cart, line.itemId ≠ .oid id) →
        stockOf id (placeAll db calls).menuItems = stockOf id db.menuItems) ∧
      (∀ m ∈ (placeAll db calls).menuItems, 0 ≤ m.availableStock) := by
  obtain ⟨created, ho, hs, hu, hn⟩ := placeAll_accounting calls db
  exact ⟨created, ho, hs, hu, hn hstock⟩

/-- C1, the scenario: `Chai` with stock 100 ordered with qty 3 ends at stock 97. -/
theorem createOrder_stock_accounting_witness :
    (∀ m ∈ sampleDB.menuItems, 0 ≤ m.availableStock) ∧
      stockOf 1 (placeAll sampleDB [(Faults.none, chaiRequest)]).menuItems = some 97 ∧
      ∃ created : List Order,
        (placeAll sampleDB [(Faults.none, chaiRequest)]).orders = sampleDB.orders ++ created ∧
        (∀ id, stockOf id (placeAll sampleDB [(Faults.none, chaiRequest)]).menuItems
          = (stockOf id sampleDB.menuItems).map (fun x => x - orderedQtyAll id created)) ∧
        (∀ id, (∀ c ∈ [(Faults.none, chaiRequest)], ∀ cart, c.2.items = some cart →
            ∀ line ∈ cart, line.itemId ≠ .oid id) →
          stockOf id (placeAll sampleDB [(Faults.none, chaiRequest)]).menuItems
            = stockOf id sampleDB.menuItems) ∧
        (∀ m ∈ (placeAll sampleDB [(Faults.none, chaiRequest)]).menuItems,
          0 ≤ m.availableStock) :=
  ⟨by decide, by decide,
    createOrder_stock_accounting sampleDB [(Faults.none, chaiRequest)] (by decide)⟩

/-- C2: when `createOrder` fails at any step up to and including the commit, the database is
exactly the one of before the call (stocks, orders and counters), the outcome is the one of
that step (its failure response; no response after a commit that throws), it is not a
success, and nothing is emitted. -/
theorem createOrder_failure_rolls_back (f : Faults) (db db1 : DB) (req : CreateRequest)
    (r : Response) (h : createOrderTxn f db req = .error (db1, r)) :
    db1 = db ∧ createOrder f db req = ⟨db, r, []⟩ ∧ r.success = false :=
  ⟨(createOrderTxn_error h).1, createOrder_of_error h, (createOrderTxn_error h).2⟩

/-- C2, an instance: the second line fails after the first line was decremented. -/
theorem createOrder_failure_rolls_back_witness :
    createOrderTxn Faults.none sampleDB
        ⟨7, some [⟨.oid 1, some 3, none⟩, ⟨.oid 2, some 5, none⟩], some "counter", none, true⟩
      = .error (sampleDB, .fail 400 "Insufficient stock for Samosa. Available: 2") ∧
      sampleDB = sampleDB ∧
      createOrder Faults.none sampleDB
          ⟨7, some [⟨.oid 1, some 3, none⟩, ⟨.oid 2, some 5, none⟩], some "counter", none, true⟩
        = ⟨sampleDB, .fail 400 "Insufficient stock for Samosa. Available: 2", []⟩ ∧
      (Response.fail 400 "Insufficient stock for Samosa. Available: 2").success = false :=
  ⟨rfl, createOrder_failure_rolls_back Faults.none sampleDB sampleDB
    ⟨7, some [⟨.oid 1, some 3, none⟩, ⟨.oid 2, some 5, none⟩], some "counter", none, true⟩
    (.fail 400 "Insufficient stock for Samosa. Available: 2") rfl⟩

/-- C3: the order a successful `createOrder` creates has as `totalAmount` the sum of
`price * qty` over its lines, every price being the price of the catalog item; and every
other call on the same database whose cart has the same item ids and quantities, whatever
else it sends, creates an order with the same `totalAmount`. -/
theorem createOrder_totalAmount (f : Faults) (db : DB) (req : CreateRequest)
    (h : (createOrder f db req).response.success = true) :
    ∃ order, (createOrder f db req).db.orders = db.orders ++ [order] ∧
      (createOrder f db req).response = .ok 201 (some (populate db.users order)) ∧
      order.totalAmount = linesTotal order.items ∧
      (∀ l ∈ order.items, ∃ m, findMenuItem l.itemId db.menuItems = some m ∧
        m.price = l.price) ∧
      ∀ (f2 : Faults) (req2 : CreateRequest) (order2 : Order),
        req2.items.map (List.map (fun c => (c.itemId, c.qty)))
          = req.items.map (List.map (fun c => (c.itemId, c.qty))) →
        (createOrder f2 db req2).db.orders = db.orders ++ [order2] →
        order2.totalAmount = order.totalAmount := by
  obtain ⟨db1, order, htx, hdb1, hresp⟩ := createOrder_success h
  obtain ⟨cart, s1, lines, total, hitems, -, hp, -, -, -, hord, -, -, hdb⟩ :=
    createOrderTxn_ok htx
  obtain ⟨lines1, hacc, htot, hcart, -, hprice⟩ := processItems_lines hp
  have hl : lines = lines1 := by simpa using hacc
  subst hl
  have htot1 : total = linesTotal lines := by simpa using htot
  have hprice1 : ∀ l ∈ lines, ∃ m, findMenuItem l.itemId db.menuItems = some m ∧
      m.price = l.price := by
    intro l hl
    obtain ⟨m, hm, hp, -⟩ := hprice l hl
    exact ⟨m, hm, hp⟩
  refine ⟨order, by rw [hdb1, hdb], ?_, by rw [hord]; exact htot1, ?_, ?_⟩
  · rw [hresp, hdb]
  · rw [hord]; exact hprice1
  · intro f2 req2 order2 hkeys hstored
    obtain ⟨db2, htx2⟩ := createOrder_of_stored hstored
    obtain ⟨cart2, s2, lines2, total2, hitems2, -, hp2, -, -, -, hord2, -, -, -⟩ :=
      createOrderTxn_ok htx2
    obtain ⟨lines3, hacc2, htot2, hcart2, -, hprice2⟩ := processItems_lines hp2
    have hl2 : lines2 = lines3 := by simpa using hacc2
    subst hl2
    have htot3 : total2 = linesTotal lines2 := by simpa using htot2
    have hprice3 : ∀ l ∈ lines2, ∃ m, findMenuItem l.itemId db.menuItems = some m ∧
        m.price = l.price := by
      intro l hl
      obtain ⟨m, hm, hp, -⟩ := hprice2 l hl
      exact ⟨m, hm, hp⟩
    rw [hitems, hitems2] at hkeys
    simp only [Option.map_some', Option.some.injEq] at hkeys
    rw [hord, hord2]
    show total2 = total
    rw [htot1, htot3]
    exact linesTotal_congr (by rw [hcart2, hcart, hkeys]) hprice3 hprice1

/-- C3, the scenario: one line of price 10 and qty 3 gives `totalAmount` 30. -/
theorem createOrder_totalAmount_witness :
    (createOrder Faults.none sampleDB chaiRequest).response.success = true ∧
      (createOrder Faults.none sampleDB chaiRequest).db.orders.map (fun o => o.totalAmount)
        = [30] ∧
      ∃ order, (createOrder Faults.none sampleDB chaiRequest).db.orders
          = sampleDB.orders ++ [order] ∧
        (createOrder Faults.none sampleDB chaiRequest).response
          = .ok 201 (some (populate sampleDB.users order)) ∧
        order.totalAmount = linesTotal order.items ∧
        (∀ l ∈ order.items, ∃ m, findMenuItem l.itemId sampleDB.menuItems = some m ∧
          m.price = l.price) ∧
        ∀ (f2 : Faults) (req2 : CreateRequest) (order2 : Order),
          req2.items.map (List.map (fun c => (c.itemId, c.qty)))
            = chaiRequest.items.map (List.map (fun c => (c.itemId, c.qty))) →
          (createOrder f2 sampleDB req2).db.orders = sampleDB.orders ++ [order2] →
          order2.totalAmount = order.totalAmount :=
  ⟨by decide, by decide, createOrder_totalAmount Faults.none sampleDB chaiRequest (by decide)⟩

/-- C4: when the lines before a cart line pass and that line asks for more than the stock the
item has at that point of the transaction, `createOrder` answers 400 with the message
`Insufficient stock for <name>. Available: <stock>`, the database is the one of before the
call (the stock keeps its value, no order is created) and nothing is emitted; the stock
reported is the stored stock less the quantities of the earlier lines for the item. -/
theorem createOrder_insufficient_stock (f : Faults) (db : DB) (req : CreateRequest)
    (pre post : List CartLine) (line : CartLine) (s1 : Session) (lines : List OrderItem)
    (total : Int) (id : Nat) (m : MenuItem) (qty : Int)
    (hitems : req.items = some (pre ++ line :: post))
    (hpre : processItems f 0 pre (startTransaction db) [] 0 = .ok (s1, lines, total))
    (hid : line.itemId = .oid id) (hfind : f.find pre.length = false)
    (hm : findMenuItem id s1.working.menuItems = some m) (hact : m.isActive = true)
    (hq : line.qty = some qty) (hlt : m.availableStock < qty) :
    createOrder f db req
        = ⟨db, .fail 400 ("Insufficient stock for " ++ m.name ++ ". Available: "
            ++ toString m.availableStock), []⟩ ∧
      (stockOf id db.menuItems).map (fun x => x - orderedQty id lines)
        = some m.availableStock := by
  have hc : s1.committed = db := (processItems_frame hpre).1
  have hloop : processItems f 0 (pre ++ line :: post) (startTransaction db) [] 0
      = .error (db, .fail 400 ("Insufficient stock for " ++ m.name ++ ". Available: "
          ++ toString m.availableStock)) := by
    rw [processItems_append (line :: post) hpre, processItems]
    have hact1 : (!m.isActive) = false := by rw [hact]; rfl
    simp only [hid, Nat.zero_add, hfind, hm, hact1, hq, hlt, Bool.false_eq_true, if_false,
      if_true, abortTransaction, hc]
  refine ⟨createOrder_of_error (createOrderTxn_of_loop_error hitems hloop), ?_⟩
  obtain ⟨lines1, hacc, -, -, hstock, -⟩ := processItems_lines hpre
  have hl : lines = lines1 := by simpa using hacc
  subst hl
  have h1 := hstock id
  have h2 : stockOf id s1.working.menuItems = some m.availableStock := by
    unfold stockOf; rw [hm]; rfl
  rw [← h2]
  exact h1.symm

/-- C4, the scenario: qty 5 requested of an item with stock 2 fails, the stock remains 2. -/
theorem createOrder_insufficient_stock_witness :
    stockOf 2 (createOrder Faults.none sampleDB
        ⟨7, some [⟨.oid 2, some 5, none⟩], some "counter", none, true⟩).db.menuItems
      = some 2 ∧
    (createOrder Faults.none sampleDB
        ⟨7, some [⟨.oid 2, some 5, none⟩], some "counter", none, true⟩
      = ⟨sampleDB, .fail 400 ("Insufficient stock for " ++ samosa.name ++ ". Available: "
          ++ toString samosa.availableStock), []⟩ ∧
      (stockOf 2 sampleDB.menuItems).map (fun x => x - orderedQty 2 [])
        = some samosa.availableStock) :=
  ⟨by decide,
    createOrder_insufficient_stock Faults.none sampleDB
      ⟨7, some [⟨.oid 2, some 5, none⟩], some "counter", none, true⟩
      [] [] ⟨.oid 2, some 5, none⟩ (startTransaction sampleDB) [] 0 2 samosa 5
      rfl rfl rfl rfl rfl rfl rfl (by decide)⟩

/-- C5: whatever sequence of `createOrder` and `updateOrderStatus` requests is handled (a
cancellation is such a request), the tokens of the orders stored before stay where they are,
and the tokens of the orders created since are built from the consecutive values the counter
`orderToken` takes, they are pairwise distinct and differ from every token stored before. -/
theorem orderToken_never_reissued (db : DB) (ops : List Op) :
    ∃ nums : List Nat,
      (run db ops).orders.map (fun o => o.orderToken)
        = db.orders.map (fun o => o.orderToken) ++ nums.map orderTokenOf ∧
      nums = List.range' (tokenSeq db + 1) nums.length ∧
      tokenSeq (run db ops) = tokenSeq db + nums.length ∧
      (nums.map orderTokenOf).Nodup ∧
      ∀ t ∈ nums.map orderTokenOf, t ∉ db.orders.map (fun o => o.orderToken) :=
  run_tokens ops db

/-- C6: `getNextSequence` returns the stored `seq` plus one (1 for a name that has no counter
yet) and stores it under the name, leaves the counters of other names as they are, and the
values a sequence of calls returns to one name are consecutive, strictly increasing and
pairwise distinct, whatever calls for other names come in between. -/
theorem getNextSequence_gapless (name other : String) (cs : List Counter)
    (calls : List String) :
    (match seqOf name cs with
      | none => (getNextSequence name cs).1 = 1
      | some v => (getNextSequence name cs).1 = v + 1) ∧
      seqOf other (getNextSequence name cs).2
        = (if other = name then some (getNextSequence name cs).1 else seqOf other cs) ∧
      issued name cs calls
        = List.range' ((seqOf name cs).getD 0 + 1) (calls.count name) ∧
      (issued name cs calls).Pairwise (· < ·) ∧ (issued name cs calls).Nodup := by
  have h1 := (seqOf_findOneAndUpdateInc name other cs).1
  have h2 := (seqOf_findOneAndUpdateInc name other cs).2
  refine ⟨?_, ?_, issued_eq_range name calls cs, ?_, ?_⟩
  · cases hs : seqOf name cs with
    | none => simp [getNextSequence, h1, hs]
    | some v => simp [getNextSequence, h1, hs]
  · simp only [getNextSequence, h1]
    exact h2
  · rw [issued_eq_range]
    exact List.pairwise_lt_range' _ _
  · rw [issued_eq_range]
    exact List.nodup_range' _ _

/-- C7: the order a successful `createOrder` creates is stored and answered with status
`Placed` and a status history of the single entry `Placed`. -/
theorem createOrder_initial_status (f : Faults) (db : DB) (req : CreateRequest)
    (h : (createOrder f db req).response.success = true) :
    ∃ order, (createOrder f db req).db.orders = db.orders ++ [order] ∧
      (createOrder f db req).response = .ok 201 (some (populate db.users order)) ∧
      order.status = some "Placed" ∧ order.statusHistory = [⟨some "Placed"⟩] := by
  obtain ⟨db1, order, htx, hdb1, hresp⟩ := createOrder_success h
  obtain ⟨cart, s1, lines, total, -, -, -, -, -, -, hord, -, -, hdb⟩ := createOrderTxn_ok htx
  refine ⟨order, by rw [hdb1, hdb], by rw [hresp, hdb], by rw [hord], by rw [hord]⟩

/-- C7, the scenario: the order for three `Chai` is `Placed` with one history entry. -/
theorem createOrder_initial_status_witness :
    (createOrder Faults.none sampleDB chaiRequest).response.success = true ∧
      ∃ order, (createOrder Faults.none sampleDB chaiRequest).db.orders
          = sampleDB.orders ++ [order] ∧
        (createOrder Faults.none sampleDB chaiRequest).response
          = .ok 201 (some (populate sampleDB.users order)) ∧
        order.status = some "Placed" ∧ order.statusHistory = [⟨some "Placed"⟩] :=
  ⟨by decide, createOrder_initial_status Faults.none sampleDB chaiRequest (by decide)⟩

/-- C8: for an order created by a successful `createOrder` and every sequence of
`updateOrderStatus` calls on it that all answer with success, the status history of the
stored order is the creation status `Placed` followed by the requested statuses in call
order, so its length is one plus the number of calls. -/
theorem updateOrderStatus_appends_history (f : Faults) (db : DB) (req : CreateRequest)
    (p : PopulatedOrder) (calls : List (Faults × StatusRequest))
    (hcreated : (createOrder f db req).response = .ok 201 (some p))
    (hids : ∀ c ∈ calls, c.2.id = .oid p.order._id)
    (hsucc : statusAllSucceed (createOrder f db req).db calls = true) :
    ∃ o, findOrder p.order._id (statusAll (createOrder f db req).db calls).orders = some o ∧
      o.statusHistory = ⟨some "Placed"⟩ :: calls.map (fun c => ⟨c.2.status⟩) ∧
      o.statusHistory.length = 1 + calls.length := by
  obtain ⟨db1, order, htx, hdb1, -, hdata, -⟩ := createOrder_ok hcreated
  obtain ⟨cart, s1, lines, total, -, -, -, -, -, -, hord, -, -, hdb⟩ := createOrderTxn_ok htx
  have hp : p = populate db1.users order := Option.some.inj hdata
  have hpo : p.order = order := by rw [hp]; rfl
  have hfind : findOrder p.order._id (createOrder f db req).db.orders = some order := by
    rw [hpo, hdb1, hdb]
    exact findOrder_fresh (by rw [hord])
  obtain ⟨o, ho, hh⟩ := statusAll_history p.order._id calls _ order hfind hids hsucc
  have hhist : order.statusHistory = [⟨some "Placed"⟩] := by rw [hord]
  refine ⟨o, ho, ?_, ?_⟩
  · rw [hh, hhist]; rfl
  · rw [hh, hhist]; simp; omega

/-- C8, an instance: the order of the scenario moved to `In Preparation` and to `Ready`. -/
theorem updateOrderStatus_appends_history_witness :
    (createOrder Faults.none sampleDB chaiRequest).response
        = .ok 201 (some (populate sampleDB.users chaiOrder)) ∧
      (∀ c ∈ sampleStatusCalls, c.2.id = .oid (populate sampleDB.users chaiOrder).order._id) ∧
      statusAllSucceed (createOrder Faults.none sampleDB chaiRequest).db sampleStatusCalls
        = true ∧
      ∃ o, findOrder (populate sampleDB.users chaiOrder).order._id
          (statusAll (createOrder Faults.none sampleDB chaiRequest).db sampleStatusCalls).orders
            = some o ∧
        o.statusHistory
          = ⟨some "Placed"⟩ :: sampleStatusCalls.map (fun c => ⟨c.2.status⟩) ∧
        o.statusHistory.length = 1 + sampleStatusCalls.length :=
  ⟨by decide, by decide, by decide,
    updateOrderStatus_appends_history Faults.none sampleDB chaiRequest
      (populate sampleDB.users chaiOrder) sampleStatusCalls (by decide) (by decide)
      (by decide)⟩

/-- C9, refuted: the completed order of `completedDB` is moved back to `Placed`; the call
answers with success, the stored status is `Placed` and the history has one more entry. -/
theorem updateOrderStatus_terminal_counterexample :
    findOrder 1 completedDB.orders = some completedOrder ∧
      completedOrder.status = some "Completed" ∧
      (updateOrderStatus Faults.none completedDB ⟨.oid 1, some "Placed", true⟩).response.success
        = true ∧
      findOrder 1
          (updateOrderStatus Faults.none completedDB ⟨.oid 1, some "Placed", true⟩).db.orders
        = some { completedOrder with
                  status := some "Placed"
                  statusHistory :=
                    [⟨some "Placed"⟩, ⟨some "Completed"⟩, ⟨some "Placed"⟩] } := by
  decide

/-- C9, amended: for a stored order that passes the schema and whose status is `Completed` or
`Cancelled`, and when neither the read nor the save throws, `updateOrderStatus` is rejected,
with the database left as it was, exactly when the requested status is a value outside the
`enum`; a status of the `enum` (or none) is accepted: the stored order gets that status and
one more history entry. -/
theorem updateOrderStatus_terminal (f : Faults) (db : DB) (id : Nat) (stored : Order)
    (status : Option String) (socket : Bool)
    (hfind : findOrder id db.orders = some stored)
    (_hterm : stored.status = some "Completed" ∨ stored.status = some "Cancelled")
    (hvalid : validOrder stored = true) (hf : f.find 0 = false) (hs : f.save 0 = false) :
    if validStatus status = true then
      findOrder id (updateOrderStatus f db ⟨.oid id, status, socket⟩).db.orders
        = some { stored with
                  status := status
                  statusHistory := stored.statusHistory ++ [⟨status⟩] }
    else updateOrderStatus f db ⟨.oid id, status, socket⟩ = ⟨db, .caught .validation, []⟩ := by
  have hrest : validOrder (updateStatus stored status) = validStatus status := by
    simp only [validOrder, Bool.and_eq_true, decide_eq_true_eq] at hvalid
    simp only [validOrder, updateStatus, hvalid.1.1.1.1.1, hvalid.1.1.1.1.2, hvalid.1.1.1.2,
      hvalid.1.1.2, hvalid.1.2, decide_True, Bool.true_and, decide_not, ne_eq,
      not_false_eq_true]
  have hoid : stored._id = id := findOrder_id hfind
  split
  · rename_i hv
    rw [@updateOrderStatus_db_of_saved f db ⟨.oid id, status, socket⟩ id stored rfl hf hfind
      (by rw [hrest]; exact hv) hs]
    have hfind2 : findOrder (updateStatus stored status)._id db.orders = some stored := by
      show findOrder stored._id db.orders = some stored
      rw [hoid]; exact hfind
    have := findOrder_save hfind2
    rw [show (updateStatus stored status)._id = id from hoid] at this
    exact this
  · rename_i hv
    exact @updateOrderStatus_of_invalid f db ⟨.oid id, status, socket⟩ id stored rfl hf hfind
      (by rw [hrest]; simpa using hv)

/-- C9, amended, an instance: the completed order is moved to `Placed`. -/
theorem updateOrderStatus_terminal_witness :
    findOrder 1 completedDB.orders = some completedOrder ∧
      (completedOrder.status = some "Completed" ∨ completedOrder.status = some "Cancelled") ∧
      validOrder completedOrder = true ∧
      (if validStatus (some "Placed") = true then
        findOrder 1
            (updateOrderStatus Faults.none completedDB ⟨.oid 1, some "Placed", true⟩).db.orders
          = some { completedOrder with
                    status := some "Placed"
                    statusHistory := completedOrder.statusHistory ++ [⟨some "Placed"⟩] }
      else updateOrderStatus Faults.none completedDB ⟨.oid 1, some "Placed", true⟩
        = ⟨completedDB, .caught .validation, []⟩) :=
  ⟨by decide, by decide, by decide,
    updateOrderStatus_terminal Faults.none completedDB 1 completedOrder (some "Placed") true
      (by decide) (by decide) (by decide) rfl rfl⟩

/-- C10, refuted: the cart of the scenario sent with payment mode `online` is answered with
201, an order with payment mode `online` is stored and the stock of `Chai` drops to 97. -/
theorem createOrder_online_counterexample :
    (createOrder Faults.none sampleDB { chaiRequest with paymentMode := some "online" }).response
        = .ok 201 (some (populate sampleDB.users { chaiOrder with paymentMode := "online" })) ∧
      (createOrder Faults.none sampleDB
          { chaiRequest with paymentMode := some "online" }).db.orders
        = [{ chaiOrder with paymentMode := "online" }] ∧
      stockOf 1 (createOrder Faults.none sampleDB
          { chaiRequest with paymentMode := some "online" }).db.menuItems = some 97 := by
  decide

/-- C10, amended: a cart that `createOrder` accepts with payment mode `counter` is accepted
with payment mode `online` as well: 201 is answered, the same order is created except that its
payment mode is `online`, and the stocks are decremented as with `counter`. -/
theorem createOrder_online_accepted (f : Faults) (db : DB) (req : CreateRequest)
    (h : (createOrder f db { req with paymentMode := some "counter" }).response.success
      = true) :
    ∃ order,
      (createOrder f db { req with paymentMode := some "counter" }).db.orders
        = db.orders ++ [order] ∧
      (createOrder f db { req with paymentMode := some "online" }).response
        = .ok 201 (some (populate db.users { order with paymentMode := "online" })) ∧
      (createOrder f db { req with paymentMode := some "online" }).db.orders
        = db.orders ++ [{ order with paymentMode := "online" }] ∧
      (createOrder f db { req with paymentMode := some "online" }).db.menuItems
        = (createOrder f db { req with paymentMode := some "counter" }).db.menuItems := by
  obtain ⟨db1, order, htx, hdb1, hresp⟩ := createOrder_success h
  obtain ⟨cart, s1, lines, total, -, -, -, -, -, -, hord, -, -, hdb⟩ := createOrderTxn_ok htx
  have htx1 := createOrderTxn_paymentMode (some "online") htx (by decide)
  have htx2 : createOrderTxn f db { req with paymentMode := some "online" }
      = .ok ({ db1 with orders := db.orders ++ [{ order with paymentMode := "online" }] },
              { order with paymentMode := "online" }) := htx1
  have hfind : findOrder ({ order with paymentMode := "online" } : Order)._id
      (db.orders ++ [{ order with paymentMode := "online" }])
        = some { order with paymentMode := "online" } :=
    findOrder_fresh (by rw [hord])
  have hfind1 : findOrder order._id db1.orders = some order := by
    rw [hdb]; exact findOrder_fresh (by rw [hord])
  have hdb2 := createOrder_db_of_ok htx2
  have hu : db1.users = db.users := by rw [hdb]
  have hhyd : hydrate ({ order with paymentMode := "online" } : Order)
      = { order with paymentMode := "online" } := hydrate_of_status (by rw [hord])
  refine ⟨order, by rw [hdb1, hdb], ?_, by rw [hdb2], by rw [hdb2, hdb1]⟩
  simp only [createOrder, htx, hfind1, Option.map_some'] at h
  simp only [createOrder, htx2, hfind, Option.map_some', hu, hhyd]
  cases hpop : f.populate with
  | true => simp [hpop, Response.success] at h
  | false =>
    cases hsock : req.socket with
    | false => simp [hpop, hsock]
    | true =>
      cases hemit : f.emit with
      | true => simp [hpop, hsock, hemit, Response.success] at h
      | false => simp [hpop, hsock, hemit]

/-- C10, amended, the scenario: the cart for three `Chai`, sent with `online`. -/
theorem createOrder_online_accepted_witness :
    (createOrder Faults.none sampleDB
        { chaiRequest with paymentMode := some "counter" }).response.success = true ∧
    ∃ order,
      (createOrder Faults.none sampleDB
          { chaiRequest with paymentMode := some "counter" }).db.orders
        = sampleDB.orders ++ [order] ∧
      (createOrder Faults.none sampleDB
          { chaiRequest with paymentMode := some "online" }).response
        = .ok 201 (some (populate sampleDB.users { order with paymentMode := "online" })) ∧
      (createOrder Faults.none sampleDB
          { chaiRequest with paymentMode := some "online" }).db.orders
        = sampleDB.orders ++ [{ order with paymentMode := "online" }] ∧
      (createOrder Faults.none sampleDB
          { chaiRequest with paymentMode := some "online" }).db.menuItems
        = (createOrder Faults.none sampleDB
            { chaiRequest with paymentMode := some "counter" }).db.menuItems :=
  ⟨by decide, createOrder_online_accepted Faults.none sampleDB chaiRequest (by decide)⟩

/-! ### The token format -/

theorem digitChar_value (d : Nat) (h : d < 10) :
    (Nat.digitChar d).toNat - '0'.toNat = d := by
  interval_cases d <;> rfl

theorem toDigitsCore_append (fuel : Nat) :
    ∀ (n : Nat) (ds : List Char),
      Nat.toDigitsCore 10 fuel n ds = Nat.toDigitsCore 10 fuel n [] ++ ds := by
  induction fuel with
  | zero => intro n ds; simp [Nat.toDigitsCore]
  | succ fuel ih =>
    intro n ds
    simp only [Nat.toDigitsCore]
    split
    · simp
    · rw [ih (n / 10) (Nat.digitChar (n % 10) :: ds), ih (n / 10) [Nat.digitChar (n % 10)]]
      simp

theorem decimalValue_append_singleton (l : List Char) (c : Char) :
    decimalValue (l ++ [c]) = decimalValue l * 10 + (c.toNat - '0'.toNat) := by
  simp [decimalValue, List.foldl_append]

/-- The digits printed for a number have the number as decimal value. -/
theorem decimalValue_toDigitsCore (fuel : Nat) :
    ∀ n : Nat, n < fuel → decimalValue (Nat.toDigitsCore 10 fuel n []) = n := by
  induction fuel with
  | zero => intro n h; omega
  | succ fuel ih =>
    intro n h
    simp only [Nat.toDigitsCore]
    split
    · rename_i h0
      have hn : n < 10 := by omega
      have hmod : n % 10 = n := Nat.mod_eq_of_lt hn
      rw [hmod]
      simp only [decimalValue, List.foldl_cons, List.foldl_nil, Nat.zero_mul, Nat.zero_add]
      exact digitChar_value n hn
    · rename_i h0
      rw [toDigitsCore_append, decimalValue_append_singleton,
        ih (n / 10) (by omega), digitChar_value _ (Nat.mod_lt _ (by decide))]
      omega

theorem decimalValue_toString (n : Nat) : decimalValue (toString n).data = n := by
  show decimalValue (Nat.toDigits 10 n) = n
  exact decimalValue_toDigitsCore (n + 1) n (Nat.lt_succ_self n)

/-- Zeros in front do not change the decimal value. -/
theorem decimalValue_zeros (k : Nat) (l : List Char) :
    decimalValue (List.replicate k '0' ++ l) = decimalValue l := by
  induction k with
  | zero => rfl
  | succ k ih =>
    have hstep : decimalValue (List.replicate (k + 1) '0' ++ l)
        = decimalValue (List.replicate k '0' ++ l) := by
      simp only [decimalValue, List.replicate_succ, List.cons_append, List.foldl_cons]
      rfl
    rw [hstep, ih]

/-- The characters of a token: `TKN`, the padding, the digits of the number. -/
theorem orderTokenOf_data (n : Nat) :
    (orderTokenOf n).data
      = ['T', 'K', 'N']
          ++ (List.replicate (4 - (toString n).length) '0' ++ (toString n).data) := by
  simp [orderTokenOf, padStart, String.data_append]

theorem tokenNumber_orderTokenOf (n : Nat) : tokenNumber (orderTokenOf n) = n := by
  unfold tokenNumber
  rw [orderTokenOf_data]
  show decimalValue (List.replicate _ '0' ++ (toString n).data) = n
  rw [decimalValue_zeros, decimalValue_toString]

/-! ### Reading orders -/

theorem populate_owner {users : List User} {o : Order} {owner : Profile}
    (h : (populate users o).user = some owner) : owner._id = o.userId := by
  simp only [populate, Option.map_eq_some'] at h
  obtain ⟨u, hu, hp⟩ := h
  have := List.find?_some hu
  simp only [decide_eq_true_eq] at this
  rw [← hp]
  exact this

/-! ### More on the loop over the cart -/

/-- The loop changes of a stored item nothing but its stock. -/
theorem processItems_item {f : Faults} {items : List CartLine} (id : Nat) :
    ∀ {i : Nat} {s : Session} {acc : List OrderItem} {t : Int}
      {res : Session × List OrderItem × Int} {m0 : MenuItem},
      processItems f i items s acc t = .ok res →
      findMenuItem id s.working.menuItems = some m0 →
      ∃ m1, findMenuItem id res.1.working.menuItems = some m1 ∧ m1.name = m0.name ∧
        m1.isActive = m0.isActive ∧ m1.price = m0.price := by
  induction items with
  | nil =>
    intro i s acc t res m0 h hm0
    simp only [processItems, Except.ok.injEq] at h
    subst h
    exact ⟨m0, hm0, rfl, rfl, rfl⟩
  | cons item rest ih =>
    intro i s acc t res m0 h hm0
    obtain ⟨id0, m, qty, -, -, hm, -, -, -, -, -, hrest⟩ := processItems_ok_cons h
    have hmid : m._id = id0 := findMenuItem_id hm
    have hm' : findMenuItem
        ({ m with availableStock := m.availableStock - qty } : MenuItem)._id
        s.working.menuItems = some m := by
      show findMenuItem m._id s.working.menuItems = some m
      rw [hmid]; exact hm
    have hsaved := findMenuItem_save hm' id
    by_cases hi : id = m._id
    · have hi2 : id = ({ m with availableStock := m.availableStock - qty } : MenuItem)._id := hi
      rw [if_pos hi2] at hsaved
      have hmm : m0 = m := by
        rw [hi, hmid, hm] at hm0
        exact (Option.some.inj hm0).symm
      subst hmm
      obtain ⟨m1, h1, hn, ha, hp⟩ := ih hrest hsaved
      exact ⟨m1, h1, hn, ha, hp⟩
    · have hi2 : ¬ id = ({ m with availableStock := m.availableStock - qty } : MenuItem)._id :=
        hi
      rw [if_neg hi2] at hsaved
      exact ih hrest (hsaved.trans hm0)

/-- An id that matches no stored item matches none while the loop runs. -/
theorem processItems_missing {f : Faults} {items : List CartLine} {id : Nat} {i : Nat}
    {s : Session} {acc : List OrderItem} {t : Int} {res : Session × List OrderItem × Int}
    (h : processItems f i items s acc t = .ok res)
    (hnone : findMenuItem id s.working.menuItems = none) :
    findMenuItem id res.1.working.menuItems = none := by
  obtain ⟨lines, -, -, -, hstock, -⟩ := processItems_lines h
  have h1 := hstock id
  simp only [stockOf, hnone, Option.map_none'] at h1
  cases hfind : findMenuItem id res.1.working.menuItems with
  | none => rfl
  | some m => rw [hfind] at h1; cases h1

/-- The responses an abort inside the loop can carry: a thrown error, or the answer to a
missing item, an inactive item or an insufficient stock. -/
theorem processItems_error_response {f : Faults} {items : List CartLine} :
    ∀ {i : Nat} {s : Session} {acc : List OrderItem} {t : Int} {db : DB} {r : Response},
      processItems f i items s acc t = .error (db, r) →
        (∃ e, r = .caught e) ∨
        (∃ id : Nat, r = .fail 404 ("Menu item " ++ toString id ++ " not found")) ∨
        (∃ m : MenuItem, r = .fail 400 (m.name ++ " is currently unavailable")) ∨
        (∃ m : MenuItem, r = .fail 400 ("Insufficient stock for " ++ m.name
          ++ ". Available: " ++ toString m.availableStock)) := by
  induction items with
  | nil => intro i s acc t db r h; simp [processItems] at h
  | cons item rest ih =>
    intro i s acc t db r h
    unfold processItems at h
    split at h
    · cases h; exact Or.inl ⟨_, rfl⟩
    · split at h
      · cases h; exact Or.inl ⟨_, rfl⟩
      · split at h
        · cases h; exact Or.inr (Or.inl ⟨_, rfl⟩)
        · split at h
          · cases h; exact Or.inr (Or.inr (Or.inl ⟨_, rfl⟩))
          · split at h
            · cases h; exact Or.inl ⟨_, rfl⟩
            · split at h
              · cases h; exact Or.inr (Or.inr (Or.inr ⟨_, rfl⟩))
              · simp only at h
                split at h
                · cases h; exact Or.inl ⟨_, rfl⟩
                · split at h
                  · cases h; exact Or.inl ⟨_, rfl⟩
                  · have hrest := ih h
                    exact hrest

/-- The responses an aborted transaction over a cart that is not empty can carry; the abort
after a commit that throws comes with order lines that have passed the schema. -/
theorem createOrderTxn_error_response {f : Faults} {db db1 : DB} {req : CreateRequest}
    {r : Response} {item : CartLine} {rest : List CartLine}
    (hitems : req.items = some (item :: rest))
    (h : createOrderTxn f db req = .error (db1, r)) :
    ((∃ e, r = .caught e) ∨
      (∃ id : Nat, r = .fail 404 ("Menu item " ++ toString id ++ " not found")) ∨
      (∃ m : MenuItem, r = .fail 400 (m.name ++ " is currently unavailable")) ∨
      (∃ m : MenuItem, r = .fail 400 ("Insufficient stock for " ++ m.name
        ++ ". Available: " ++ toString m.availableStock))) ∨
    (r = .unanswered ∧ f.commit = true ∧
      ∃ s1 lines total,
        processItems f 0 (item :: rest) (startTransaction db) [] 0 = .ok (s1, lines, total) ∧
        lines.all validOrderItem = true) := by
  unfold createOrderTxn at h
  simp only [hitems] at h
  split at h
  · rename_i e he
    cases h
    exact Or.inl (processItems_error_response he)
  · rename_i s1 lines total hp
    split at h
    · cases h; exact Or.inl (Or.inl ⟨_, rfl⟩)
    · split at h
      · cases h; exact Or.inl (Or.inl ⟨_, rfl⟩)
      · rename_i hvalid
        split at h
        · cases h; exact Or.inl (Or.inl ⟨_, rfl⟩)
        · split at h
          · cases h; exact Or.inl (Or.inl ⟨_, rfl⟩)
          · split at h
            · rename_i hcommit
              cases h
              refine Or.inr ⟨rfl, hcommit, s1, lines, total, hp, ?_⟩
              simp only [Bool.not_eq_true, Bool.not_eq_false', validOrder, newOrder,
                Bool.and_eq_true] at hvalid
              exact hvalid.1.1.1.2
            · cases h

/-- A loop that reaches its end with order lines that pass the schema has found a quantity
of at least one on every line of the cart. -/
theorem processItems_valid_qty {f : Faults} {cart : List CartLine} {i : Nat} {s : Session}
    {res : Session × List OrderItem × Int}
    (hp : processItems f i cart s [] 0 = .ok res)
    (hvalid : res.2.1.all validOrderItem = true) (line : CartLine) (hline : line ∈ cart) :
    ∃ q, line.qty = some q ∧ 1 ≤ q := by
  obtain ⟨lines1, hacc, -, hcart, -, -⟩ := processItems_lines hp
  have hl : res.2.1 = lines1 := by simpa using hacc
  rw [hl] at hvalid
  have hmem : (line.itemId, line.qty) ∈ cart.map (fun c => (c.itemId, c.qty)) :=
    List.mem_map.mpr ⟨line, hline, rfl⟩
  rw [← hcart] at hmem
  obtain ⟨l, hl1, hle⟩ := List.mem_map.mp hmem
  have hlq : some l.qty = line.qty := congrArg Prod.snd hle
  have hv := List.all_eq_true.mp hvalid l hl1
  simp only [validOrderItem, Bool.and_eq_true, decide_eq_true_eq] at hv
  exact ⟨l.qty, hlq.symm, hv.2⟩

/-- The order of a committed transaction holds a quantity of at least one on each line, and
the lines are the lines of the cart. -/
theorem createOrderTxn_ok_lines {f : Faults} {db db1 : DB} {req : CreateRequest}
    {order : Order} (h : createOrderTxn f db req = .ok (db1, order)) :
    ∃ cart, req.items = some cart ∧
      order.items.map (fun l => (IdArg.oid l.itemId, some l.qty))
        = cart.map (fun c => (c.itemId, c.qty)) ∧
      (∀ l ∈ order.items, 1 ≤ l.qty) ∧
      (∀ l ∈ order.items, ∃ m, findMenuItem l.itemId db.menuItems = some m ∧
        m.price = l.price ∧ m.name = l.name) := by
  obtain ⟨cart, s1, lines, total, hitems, -, hp, -, -, -, hord, hvalid, -, -⟩ :=
    createOrderTxn_ok h
  obtain ⟨lines1, hacc, -, hcart, -, hprice⟩ := processItems_lines hp
  have hl : lines = lines1 := by simpa using hacc
  subst hl
  have hitemsEq : order.items = lines := by rw [hord]
  refine ⟨cart, hitems, by rw [hitemsEq]; exact hcart, ?_, by rw [hitemsEq]; exact hprice⟩
  intro l hl
  simp only [validOrder, Bool.and_eq_true, List.all_eq_true] at hvalid
  have hv := hvalid.1.1.1.2 l hl
  simp only [validOrderItem, Bool.and_eq_true, decide_eq_true_eq] at hv
  exact hv.2

/-- The counter and the token of a committed transaction. -/
theorem createOrderTxn_ok_token {f : Faults} {db db1 : DB} {req : CreateRequest}
    {order : Order} (h : createOrderTxn f db req = .ok (db1, order)) :
    db1.orders = db.orders ++ [order] ∧ tokenSeq db1 = tokenSeq db + 1 ∧
      order.orderToken = orderTokenOf (tokenSeq db1) := by
  obtain ⟨cart, s1, lines, total, -, -, -, -, -, -, hord, -, -, hdb⟩ := createOrderTxn_ok h
  have h1 : (getNextSequence "orderToken" db.counters).1 = tokenSeq db + 1 :=
    (seqOf_findOneAndUpdateInc "orderToken" "orderToken" db.counters).1
  have h2 : seqOf "orderToken" (getNextSequence "orderToken" db.counters).2
      = some (tokenSeq db + 1) := by
    have := (seqOf_findOneAndUpdateInc "orderToken" "orderToken" db.counters).2
    simpa using this
  have hseq : tokenSeq db1 = tokenSeq db + 1 := by
    rw [hdb]; simp [tokenSeq, h2]
  refine ⟨by rw [hdb], hseq, ?_⟩
  rw [hseq, hord, ← h1]

/-! ### What the requests leave as it is -/

theorem findOrder_append_left {id : Nat} {os : List Order} {o : Order} (extra : List Order)
    (h : findOrder id os = some o) : findOrder id (os ++ extra) = some o := by
  induction os with
  | nil => simp [findOrder] at h
  | cons a as ih =>
    unfold findOrder at h
    by_cases ha : a._id = id
    · simp only [ha, if_true] at h
      simp [findOrder, ha, h]
    · simp only [ha, if_false] at h
      simp only [List.cons_append, findOrder, ha, if_false]
      exact ih h

theorem findOrder_saveOrder {x stored : Order} {os : List Order}
    (h : findOrder x._id os = some stored) (id : Nat) :
    findOrder id (saveOrder x os) = if id = x._id then some x else findOrder id os := by
  induction os with
  | nil => simp [findOrder] at h
  | cons a as ih =>
    unfold findOrder at h
    by_cases ha : a._id = x._id
    · simp only [saveOrder, ha, if_true, findOrder]
      by_cases hid : id = x._id
      · simp [hid]
      · have : ¬ x._id = id := fun e => hid e.symm
        simp [hid, this]
    · simp only [ha, if_false] at h
      simp only [saveOrder, ha, if_false, findOrder]
      by_cases hid : id = x._id
      · subst hid
        simp only [ha, if_false, ih h, if_true]
      · by_cases hai : a._id = id
        · simp [hai, hid]
        · simp only [hai, if_false, ih h, hid]

/-- The menu controller does not write orders, counters or users. -/
theorem menu_requests_frame (f : Faults) (db : DB) (id : IdArg) (body : MenuItemInput) :
    (createMenuItem f db body).db.orders = db.orders ∧
      (updateMenuItem f db id body).db.orders = db.orders ∧
      (deleteMenuItem f db id).db.orders = db.orders := by
  refine ⟨?_, ?_, ?_⟩
  · unfold createMenuItem
    split
    · simp only
      split
      · rfl
      · split <;> rfl
    · rfl
  · unfold updateMenuItem
    split
    · rfl
    · split
      · rfl
      · split
        · rfl
        · split <;> rfl
  · unfold deleteMenuItem
    split
    · rfl
    · split
      · rfl
      · split <;> rfl

/-- The handler `updateOrderStatus` writes orders only. -/
theorem updateOrderStatus_frame (f : Faults) (db : DB) (req : StatusRequest) :
    (updateOrderStatus f db req).db.menuItems = db.menuItems ∧
      (updateOrderStatus f db req).db.counters = db.counters := by
  rcases updateOrderStatus_db f db req with ⟨hdb, -⟩ | ⟨id, stored, -, -, -, -, -, hdb⟩
  · rw [hdb]; exact ⟨rfl, rfl⟩
  · rw [hdb]; exact ⟨rfl, rfl⟩

/-- One request leaves of every stored order everything but status and history. -/
theorem apply_immutablePart (r : Request) (db : DB) (id : Nat) (o : Order)
    (hfind : findOrder id db.orders = some o) :
    ∃ o1, findOrder id (r.apply db).orders = some o1 ∧ immutablePart o1 = immutablePart o := by
  cases r with
  | order op =>
    cases op with
    | create f req =>
      obtain ⟨created, ho, -, -⟩ := createOrder_step f db req
      refine ⟨o, ?_, rfl⟩
      show findOrder id (createOrder f db req).db.orders = some o
      rw [ho]
      exact findOrder_append_left created hfind
    | status f req =>
      show ∃ o1, findOrder id (updateOrderStatus f db req).db.orders = some o1 ∧ _
      rcases updateOrderStatus_db f db req with ⟨hdb, -⟩ | ⟨id1, stored, -, -, hfind1, -, -, hdb⟩
      · rw [hdb]; exact ⟨o, hfind, rfl⟩
      · rw [hdb]
        have hsid : stored._id = id1 := findOrder_id hfind1
        have hfind2 : findOrder (updateStatus stored req.status)._id db.orders = some stored := by
          show findOrder stored._id db.orders = some stored
          rw [hsid]; exact hfind1
        have hsave := findOrder_saveOrder hfind2 id
        by_cases hi : id = stored._id
        · have hi2 : id = (updateStatus stored req.status)._id := hi
          rw [if_pos hi2] at hsave
          have hso : stored = o := by
            rw [hi, hsid, hfind1] at hfind
            exact Option.some.inj hfind
          subst hso
          exact ⟨updateStatus stored req.status, hsave, rfl⟩
        · have hi2 : ¬ id = (updateStatus stored req.status)._id := hi
          rw [if_neg hi2] at hsave
          exact ⟨o, hsave.trans hfind, rfl⟩
  | menuCreate f body =>
    refine ⟨o, ?_, rfl⟩
    show findOrder id (createMenuItem f db body).db.orders = some o
    rw [(menu_requests_frame f db (.oid 0) body).1]; exact hfind
  | menuUpdate f mid body =>
    refine ⟨o, ?_, rfl⟩
    show findOrder id (updateMenuItem f db mid body).db.orders = some o
    rw [(menu_requests_frame f db mid body).2.1]; exact hfind
  | menuDelete f mid =>
    refine ⟨o, ?_, rfl⟩
    show findOrder id (deleteMenuItem f db mid).db.orders = some o
    rw [(menu_requests_frame f db mid ⟨none, none, none, none, none, none⟩).2.2]; exact hfind

/-- Any sequence of requests leaves of every stored order everything but status and
history. -/
theorem serve_immutablePart (reqs : List Request) :
    ∀ (db : DB) (id : Nat) (o : Order), findOrder id db.orders = some o →
      ∃ o1, findOrder id (serve db reqs).orders = some o1 ∧
        immutablePart o1 = immutablePart o := by
  induction reqs with
  | nil => intro db id o h; exact ⟨o, h, rfl⟩
  | cons r rs ih =>
    intro db id o h
    obtain ⟨o1, h1, hp1⟩ := apply_immutablePart r db id o h
    obtain ⟨o2, h2, hp2⟩ := ih (r.apply db) id o1 h1
    exact ⟨o2, h2, hp2.trans hp1⟩

/-! ## The claims, continued -/

/-- For a stored order whose owner is stored as well, and when the read does not throw,
`getOrder` answers 200 with the populated order if the requester is the owner of the order or
has role `admin` or `staff`, and otherwise answers 403 with a message only. -/
theorem getOrder_when_owner_stored (f : Faults) (db : DB) (user : Requester) (id : Nat)
    (stored : Order) (owner : Profile)
    (hf : f.find 0 = false) (hp : f.populate = false)
    (hfind : findOrder id db.orders = some stored)
    (howner : (populate db.users stored).user = some owner) :
    getOrder f db user (.oid id)
      = if stored.userId = user._id ∨ user.role = "admin" ∨ user.role = "staff" then
          .ok 200 (some (populate db.users (hydrate stored)))
        else .fail 403 "Not authorized to view this order" := by
  have hid := populate_owner howner
  have howner1 : (populate db.users (hydrate stored)).user = some owner := howner
  simp only [getOrder, hf, hp, Bool.or_self, Bool.false_eq_true, if_false, hfind, howner1, hid]
  by_cases h1 : stored.userId = user._id
  · simp [h1]
  · by_cases h2 : user.role = "admin"
    · simp [h1, h2]
    · by_cases h3 : user.role = "staff"
      · simp [h1, h3]
      · simp [h1, h2, h3]

/-- C11, the code at the failing input: the completed order is stored and the document of
its owner is gone; `getOrder` then reads `order.userId._id` of a populated `userId` that is
null and answers 500 through the catch block, to an admin, to the owner and to a student who
is not the owner alike, where an admin and the owner are to get the order and the other
student a 403. With the owner stored, the same requests are answered as claimed. -/
theorem getOrder_owner_gone :
    findOrder 1 ownerGoneDB.orders = some completedOrder ∧
      getOrder Faults.none ownerGoneDB ⟨1, "admin"⟩ (.oid 1) = .caught .typeError ∧
      getOrder Faults.none ownerGoneDB ⟨7, "student"⟩ (.oid 1) = .caught .typeError ∧
      getOrder Faults.none ownerGoneDB otherStudent (.oid 1) = .caught .typeError ∧
      (Response.caught .typeError).code = 500 ∧
      getOrder Faults.none completedDB ⟨1, "admin"⟩ (.oid 1)
        = .ok 200 (some (populate completedDB.users completedOrder)) ∧
      getOrder Faults.none completedDB ⟨7, "student"⟩ (.oid 1)
        = .ok 200 (some (populate completedDB.users completedOrder)) ∧
      getOrder Faults.none completedDB otherStudent (.oid 1)
        = .fail 403 "Not authorized to view this order" := by
  decide

/-- C12: behind `authorize('admin', 'staff')` the status route runs `updateOrderStatus` and
the list route runs `getAllOrders` for a user with role `admin` or `staff`; for every other
role the routes answer 403, the handler is not run and the database stays as it is. -/
theorem authorize_elevated_only (f : Faults) (db : DB) (u : Requester) (req : StatusRequest)
    (q : OrdersQuery) :
    putOrderStatusRoute f db (some u) req
        = (if u.role = "admin" ∨ u.role = "staff" then updateOrderStatus f db req
          else ⟨db, .fail 403 ("User role '" ++ u.role
                  ++ "' is not authorized to access this route"), []⟩) ∧
      getOrdersRoute f db (some u) q
        = (if u.role = "admin" ∨ u.role = "staff" then .handled (getAllOrders f db q)
          else .denied (.fail 403 ("User role '" ++ u.role
                  ++ "' is not authorized to access this route"))) := by
  by_cases h1 : u.role = "admin"
  · simp [putOrderStatusRoute, getOrdersRoute, authorize, h1]
  · by_cases h2 : u.role = "staff"
    · simp [putOrderStatusRoute, getOrdersRoute, authorize, h2]
    · simp [putOrderStatusRoute, getOrdersRoute, authorize, h1, h2]

/-- C15: `createOrder` without an `items` list or with an empty one answers 400 with the
message `Order must contain at least one item`, whatever the storage calls would do: the
database (menu items, counters, orders) is the one of before the call. -/
theorem createOrder_empty_cart (f : Faults) (db : DB) (req : CreateRequest)
    (h : req.items = none ∨ req.items = some []) :
    createOrder f db req = ⟨db, .fail 400 "Order must contain at least one item", []⟩ := by
  rcases h with h | h <;> simp [createOrder, createOrderTxn, h, abortTransaction, startTransaction]

/-- C15, an instance: an empty cart, every storage call set to throw. -/
theorem createOrder_empty_cart_witness :
    ((⟨7, some [], some "counter", none, true⟩ : CreateRequest).items = none
        ∨ (⟨7, some [], some "counter", none, true⟩ : CreateRequest).items = some []) ∧
      createOrder ⟨fun _ => true, fun _ => true, true, true, true, true, true⟩ sampleDB
          ⟨7, some [], some "counter", none, true⟩
        = ⟨sampleDB, .fail 400 "Order must contain at least one item", []⟩ :=
  ⟨Or.inr rfl,
    createOrder_empty_cart ⟨fun _ => true, fun _ => true, true, true, true, true, true⟩ sampleDB
      ⟨7, some [], some "counter", none, true⟩ (Or.inr rfl)⟩

/-- C20: the number read back from the token built for a sequence value is that value, so
the tokens of different values differ and the numbers read back are in the order of the
values. -/
theorem orderToken_parses_back (n : Nat) :
    (orderTokenOf n).data.take 3 = ['T', 'K', 'N'] ∧
      tokenNumber (orderTokenOf n) = n ∧
      (∀ m, orderTokenOf n = orderTokenOf m → n = m) ∧
      (∀ m, n < m → tokenNumber (orderTokenOf n) < tokenNumber (orderTokenOf m)) := by
  refine ⟨by rw [orderTokenOf_data]; rfl, tokenNumber_orderTokenOf n, ?_, ?_⟩
  · intro m h
    have := congrArg tokenNumber h
    rwa [tokenNumber_orderTokenOf, tokenNumber_orderTokenOf] at this
  · intro m h
    rwa [tokenNumber_orderTokenOf, tokenNumber_orderTokenOf]

/-- C13, refuted: a cart whose only line has an `itemId` that is no ObjectId, and so the id
of no stored menu item, is not answered with 404: `findById` throws a CastError and the catch
block answers 500. -/
theorem createOrder_item_not_found_counterexample :
    (∀ m ∈ sampleDB.menuItems, IdArg.oid m._id ≠ .malformed "abc") ∧
      createOrder Faults.none sampleDB
          ⟨7, some [⟨.malformed "abc", some 1, none⟩], some "counter", none, true⟩
        = ⟨sampleDB, .caught .cast, []⟩ ∧
      (Response.caught .cast).code = 500 := by
  decide

/-- C13, amended: when the lines before a cart line pass and the `itemId` of that line is
the id of no stored menu item, `createOrder` answers 404 with the message
`Menu item <id> not found` if the `itemId` is an ObjectId, and 500 through the catch block
if it is not one; in both cases the database is the one of before the call (no stock is
changed, no order is created) and nothing is emitted. -/
theorem createOrder_item_not_found (f : Faults) (db : DB) (req : CreateRequest)
    (pre post : List CartLine) (line : CartLine) (s1 : Session) (lines : List OrderItem)
    (total : Int)
    (hitems : req.items = some (pre ++ line :: post))
    (hpre : processItems f 0 pre (startTransaction db) [] 0 = .ok (s1, lines, total))
    (hfind : f.find pre.length = false)
    (hnone : ∀ id, line.itemId = .oid id → findMenuItem id db.menuItems = none) :
    createOrder f db req
      = ⟨db,
          match line.itemId with
          | .oid id => .fail 404 ("Menu item " ++ toString id ++ " not found")
          | .malformed _ => .caught .cast,
          []⟩ := by
  have hc : s1.committed = db := (processItems_frame hpre).1
  cases hid : line.itemId with
  | oid id =>
    have hnone1 : findMenuItem id s1.working.menuItems = none :=
      processItems_missing hpre (hnone id hid)
    have hloop : processItems f 0 (pre ++ line :: post) (startTransaction db) [] 0
        = .error (db, .fail 404 ("Menu item " ++ toString id ++ " not found")) := by
      rw [processItems_append (line :: post) hpre, processItems]
      simp only [hid, Nat.zero_add, hfind, hnone1, Bool.false_eq_true, if_false,
        abortTransaction, hc]
    exact createOrder_of_error (createOrderTxn_of_loop_error hitems hloop)
  | malformed raw =>
    have hloop : processItems f 0 (pre ++ line :: post) (startTransaction db) [] 0
        = .error (db, .caught .cast) := by
      rw [processItems_append (line :: post) hpre, processItems]
      simp only [hid, abortTransaction, hc]
    exact createOrder_of_error (createOrderTxn_of_loop_error hitems hloop)

/-- C13, amended, two instances: three `Chai` and one of an item with an id that is not
stored, and three `Chai` and one of an item with an id that is no ObjectId. -/
theorem createOrder_item_not_found_witness :
    createOrder Faults.none sampleDB
        ⟨7, some [⟨.oid 1, some 3, none⟩, ⟨.oid 9, some 1, none⟩], some "counter", none, true⟩
      = ⟨sampleDB, .fail 404 "Menu item 9 not found", []⟩ ∧
    createOrder Faults.none sampleDB
        ⟨7, some [⟨.oid 1, some 3, none⟩, ⟨.oid 9, some 1, none⟩], some "counter", none, true⟩
      = ⟨sampleDB, .fail 404 ("Menu item " ++ toString 9 ++ " not found"), []⟩ ∧
    createOrder Faults.none sampleDB
        ⟨7, some [⟨.oid 1, some 3, none⟩, ⟨.malformed "abc", some 1, none⟩], some "counter",
          none, true⟩
      = ⟨sampleDB, .caught .cast, []⟩ :=
  ⟨by decide,
    createOrder_item_not_found Faults.none sampleDB
      ⟨7, some [⟨.oid 1, some 3, none⟩, ⟨.oid 9, some 1, none⟩], some "counter", none, true⟩
      [⟨.oid 1, some 3, none⟩] [] ⟨.oid 9, some 1, none⟩
      ⟨sampleDB, { sampleDB with menuItems := [{ chai with availableStock := 97 }, samosa] }⟩
      [⟨1, "Chai", 10, 3⟩] 30 rfl rfl rfl (fun id h => by cases h; rfl),
    createOrder_item_not_found Faults.none sampleDB
      ⟨7, some [⟨.oid 1, some 3, none⟩, ⟨.malformed "abc", some 1, none⟩], some "counter",
        none, true⟩
      [⟨.oid 1, some 3, none⟩] [] ⟨.malformed "abc", some 1, none⟩
      ⟨sampleDB, { sampleDB with menuItems := [{ chai with availableStock := 97 }, samosa] }⟩
      [⟨1, "Chai", 10, 3⟩] 30 rfl rfl rfl (fun id h => by cases h)⟩

/-- C14: when the lines before a cart line pass and that line refers to a stored menu item
that is not active, `createOrder` answers 400 with the message
`<name> is currently unavailable`, whatever the stock of the item and the quantity asked
for; the database is the one of before the call and nothing is emitted. -/
theorem createOrder_item_inactive (f : Faults) (db : DB) (req : CreateRequest)
    (pre post : List CartLine) (line : CartLine) (s1 : Session) (lines : List OrderItem)
    (total : Int) (id : Nat) (m : MenuItem)
    (hitems : req.items = some (pre ++ line :: post))
    (hpre : processItems f 0 pre (startTransaction db) [] 0 = .ok (s1, lines, total))
    (hid : line.itemId = .oid id) (hfind : f.find pre.length = false)
    (hm : findMenuItem id db.menuItems = some m) (hact : m.isActive = false) :
    createOrder f db req = ⟨db, .fail 400 (m.name ++ " is currently unavailable"), []⟩ := by
  have hc : s1.committed = db := (processItems_frame hpre).1
  obtain ⟨m1, hm1, hname, hactive, -⟩ := processItems_item id hpre hm
  have hact1 : (!m1.isActive) = true := by rw [hactive, hact]; rfl
  have hloop : processItems f 0 (pre ++ line :: post) (startTransaction db) [] 0
      = .error (db, .fail 400 (m.name ++ " is currently unavailable")) := by
    rw [processItems_append (line :: post) hpre, processItems]
    simp only [hid, Nat.zero_add, hfind, hm1, hact1, Bool.false_eq_true, if_false, if_true,
      abortTransaction, hc, hname]
  exact createOrder_of_error (createOrderTxn_of_loop_error hitems hloop)

/-- C14, an instance: one `Chai` of a catalog in which `Chai` is not active. -/
theorem createOrder_item_inactive_witness :
    findMenuItem 1 ({ sampleDB with menuItems := [{ chai with isActive := false }] } : DB).menuItems
        = some { chai with isActive := false } ∧
      createOrder Faults.none { sampleDB with menuItems := [{ chai with isActive := false }] }
          ⟨7, some [⟨.oid 1, some 1, none⟩], some "counter", none, true⟩
        = ⟨{ sampleDB with menuItems := [{ chai with isActive := false }] },
            .fail 400 (({ chai with isActive := false } : MenuItem).name
              ++ " is currently unavailable"), []⟩ :=
  ⟨by decide,
    createOrder_item_inactive Faults.none
      { sampleDB with menuItems := [{ chai with isActive := false }] }
      ⟨7, some [⟨.oid 1, some 1, none⟩], some "counter", none, true⟩
      [] [] ⟨.oid 1, some 1, none⟩
      (startTransaction { sampleDB with menuItems := [{ chai with isActive := false }] })
      [] 0 1 { chai with isActive := false } rfl rfl rfl rfl rfl rfl⟩

/-- C16, refuted: a line with qty 0, a line with qty -1 and a line without a qty are each
answered through the catch block, with status 500 as a storage failure is, not with a 400. -/
theorem createOrder_bad_qty_counterexample :
    createOrder Faults.none sampleDB
        ⟨7, some [⟨.oid 1, some 0, none⟩], some "counter", none, true⟩
      = ⟨sampleDB, .caught .validation, []⟩ ∧
    createOrder Faults.none sampleDB
        ⟨7, some [⟨.oid 1, some (-1), none⟩], some "counter", none, true⟩
      = ⟨sampleDB, .caught .validation, []⟩ ∧
    createOrder Faults.none sampleDB
        ⟨7, some [⟨.oid 1, none, none⟩], some "counter", none, true⟩
      = ⟨sampleDB, .caught .cast, []⟩ ∧
    (Response.caught .validation).code = 500 ∧
    (Response.caught .validation).code = (Response.caught .storage).code := by
  decide

/-- C16, amended: a cart with a line whose qty is zero, negative or missing is rejected: the
response is a failure, the database is the one of before the call (no stock is changed, a
negative qty increases none, no order is created) and nothing is emitted. The response is
the one of the catch block (status 500) or the answer to a missing item, an inactive item or
an insufficient stock: there is no 400 of its own for the quantity. -/
theorem createOrder_bad_qty (f : Faults) (db : DB) (req : CreateRequest)
    (cart : List CartLine) (line : CartLine)
    (hitems : req.items = some cart) (hline : line ∈ cart)
    (hqty : line.qty = none ∨ ∃ q, line.qty = some q ∧ q ≤ 0) :
    (createOrder f db req).db = db ∧ (createOrder f db req).response.success = false ∧
      (createOrder f db req).emitted = [] ∧
      ((∃ e, (createOrder f db req).response = .caught e) ∨
        (∃ id : Nat, (createOrder f db req).response
          = .fail 404 ("Menu item " ++ toString id ++ " not found")) ∨
        (∃ m : MenuItem, (createOrder f db req).response
          = .fail 400 (m.name ++ " is currently unavailable")) ∨
        (∃ m : MenuItem, (createOrder f db req).response
          = .fail 400 ("Insufficient stock for " ++ m.name ++ ". Available: "
              ++ toString m.availableStock))) := by
  cases htx : createOrderTxn f db req with
  | ok res =>
    obtain ⟨db1, order⟩ := res
    exfalso
    obtain ⟨cart1, hitems1, hmap, hq, -⟩ := createOrderTxn_ok_lines htx
    rw [hitems] at hitems1
    cases hitems1
    have hmem : (line.itemId, line.qty) ∈ cart.map (fun c => (c.itemId, c.qty)) :=
      List.mem_map.mpr ⟨line, hline, rfl⟩
    rw [← hmap] at hmem
    obtain ⟨l, hl, hle⟩ := List.mem_map.mp hmem
    have hlq : some l.qty = line.qty := congrArg Prod.snd hle
    have h1 := hq l hl
    rcases hqty with hnone | ⟨q, hsome, hq0⟩
    · rw [hnone] at hlq; cases hlq
    · rw [hsome] at hlq
      cases hlq
      omega
  | error e =>
    obtain ⟨db1, r⟩ := e
    rw [createOrder_of_error htx]
    refine ⟨rfl, (createOrderTxn_error htx).2, rfl, ?_⟩
    cases cart with
    | nil => simp at hline
    | cons item rest =>
      rcases createOrderTxn_error_response hitems htx with hform | ⟨-, -, s1, lines, total, hp, hv⟩
      · exact hform
      · exfalso
        obtain ⟨q, hq, hq1⟩ := processItems_valid_qty hp hv line hline
        rcases hqty with hnone | ⟨q0, hsome, hq0⟩
        · rw [hnone] at hq; cases hq
        · rw [hsome] at hq
          cases hq
          omega

/-- C16, amended, an instance: one `Chai` with qty -1. -/
theorem createOrder_bad_qty_witness :
    (⟨.oid 1, some (-1), none⟩ : CartLine) ∈ [(⟨.oid 1, some (-1), none⟩ : CartLine)] ∧
      (createOrder Faults.none sampleDB
          ⟨7, some [⟨.oid 1, some (-1), none⟩], some "counter", none, true⟩).db = sampleDB ∧
      (createOrder Faults.none sampleDB
          ⟨7, some [⟨.oid 1, some (-1), none⟩], some "counter", none, true⟩).response.success
        = false :=
  ⟨List.mem_singleton_self _,
    (createOrder_bad_qty Faults.none sampleDB
      ⟨7, some [⟨.oid 1, some (-1), none⟩], some "counter", none, true⟩
      [⟨.oid 1, some (-1), none⟩] ⟨.oid 1, some (-1), none⟩ rfl (List.mem_singleton_self _)
      (Or.inr ⟨-1, rfl, by decide⟩)).1,
    (createOrder_bad_qty Faults.none sampleDB
      ⟨7, some [⟨.oid 1, some (-1), none⟩], some "counter", none, true⟩
      [⟨.oid 1, some (-1), none⟩] ⟨.oid 1, some (-1), none⟩ rfl (List.mem_singleton_self _)
      (Or.inr ⟨-1, rfl, by decide⟩)).2.1⟩

/-- C17: the order a successful `createOrder` creates has one line for each line of the
cart, in cart order, with the `itemId` and exactly the qty of the cart line and with the name
and the price of the catalog item. -/
theorem createOrder_order_lines (f : Faults) (db : DB) (req : CreateRequest)
    (h : (createOrder f db req).response.success = true) :
    ∃ cart order, req.items = some cart ∧
      (createOrder f db req).db.orders = db.orders ++ [order] ∧
      order.items.length = cart.length ∧
      order.items.map (fun l => (IdArg.oid l.itemId, some l.qty))
        = cart.map (fun c => (c.itemId, c.qty)) ∧
      ∀ l ∈ order.items, ∃ m, findMenuItem l.itemId db.menuItems = some m ∧
        m.name = l.name ∧ m.price = l.price := by
  obtain ⟨db1, order, htx, hdb1, -⟩ := createOrder_success h
  obtain ⟨cart, hitems, hmap, -, hprice⟩ := createOrderTxn_ok_lines htx
  refine ⟨cart, order, hitems, by rw [hdb1, (createOrderTxn_ok_token htx).1], ?_, hmap, ?_⟩
  · have := congrArg List.length hmap
    simpa using this
  · intro l hl
    obtain ⟨m, hm, hp, hn⟩ := hprice l hl
    exact ⟨m, hm, hn, hp⟩

/-- C17, the scenario: the order for three `Chai` has the one line `Chai`, 10, 3. -/
theorem createOrder_order_lines_witness :
    (createOrder Faults.none sampleDB chaiRequest).response.success = true ∧
      (createOrder Faults.none sampleDB chaiRequest).db.orders.map (fun o => o.items)
        = [[⟨1, "Chai", 10, 3⟩]] ∧
      ∃ cart order, chaiRequest.items = some cart ∧
        (createOrder Faults.none sampleDB chaiRequest).db.orders
          = sampleDB.orders ++ [order] ∧
        order.items.length = cart.length ∧
        order.items.map (fun l => (IdArg.oid l.itemId, some l.qty))
          = cart.map (fun c => (c.itemId, c.qty)) ∧
        ∀ l ∈ order.items, ∃ m, findMenuItem l.itemId sampleDB.menuItems = some m ∧
          m.name = l.name ∧ m.price = l.price :=
  ⟨by decide, by decide, createOrder_order_lines Faults.none sampleDB chaiRequest (by decide)⟩

/-- A `createOrder` whose transaction commits stores exactly one more order, moves the
counter `orderToken` on by exactly one, and the token of the order is the one built from the
new value of the counter, which is the number read back from the token; a `createOrder`
whose transaction does not commit leaves the database, orders and counter, as it was and
does not answer with success; and a `createOrder` that answers with success has
committed. -/
theorem createOrder_commit_one_order_one_value (f : Faults) (db : DB) (req : CreateRequest) :
    (match createOrderTxn f db req with
      | .ok (_, order) =>
        (createOrder f db req).db.orders = db.orders ++ [order] ∧
          tokenSeq (createOrder f db req).db = tokenSeq db + 1 ∧
          order.orderToken = orderTokenOf (tokenSeq (createOrder f db req).db) ∧
          tokenNumber order.orderToken = tokenSeq (createOrder f db req).db
      | .error _ =>
        (createOrder f db req).db = db ∧ (createOrder f db req).response.success = false) ∧
      ((createOrder f db req).response.success = true →
        ∃ db1 order, createOrderTxn f db req = .ok (db1, order)) := by
  refine ⟨?_, ?_⟩
  · cases htx : createOrderTxn f db req with
    | ok res =>
      obtain ⟨db1, order⟩ := res
      obtain ⟨ho, hs, ht⟩ := createOrderTxn_ok_token htx
      simp only [createOrder_db_of_ok htx]
      exact ⟨ho, hs, ht, by rw [ht, tokenNumber_orderTokenOf]⟩
    | error e =>
      obtain ⟨db1, r⟩ := e
      have hout := createOrder_of_error htx
      exact ⟨by rw [hout], by rw [hout]; exact (createOrderTxn_error htx).2⟩
  · intro h
    obtain ⟨db1, order, htx, -, -⟩ := createOrder_success h
    exact ⟨db1, order, htx⟩

/-- C19, the code at the failing input: when the emit on the socket or the read of the order
after the commit throws, `createOrder` does not answer with success and emits nothing, and
yet the order is stored and the counter `orderToken` has moved from 0 to 1: a call that
does not succeed has created an order and consumed a sequence value. When nothing throws,
the same request is answered with success, one order is stored, the counter has moved on by
one and the number of the token is the new value of the counter. -/
theorem createOrder_unanswered_keeps_order :
    sampleDB.orders = [] ∧ tokenSeq sampleDB = 0 ∧
      (createOrder emitFails sampleDB chaiRequest).response.success = false ∧
      (createOrder emitFails sampleDB chaiRequest).emitted = [] ∧
      (createOrder emitFails sampleDB chaiRequest).db.orders = [chaiOrder] ∧
      tokenSeq (createOrder emitFails sampleDB chaiRequest).db = 1 ∧
      (createOrder readBackFails sampleDB chaiRequest).response.success = false ∧
      (createOrder readBackFails sampleDB chaiRequest).emitted = [] ∧
      (createOrder readBackFails sampleDB chaiRequest).db.orders = [chaiOrder] ∧
      tokenSeq (createOrder readBackFails sampleDB chaiRequest).db = 1 ∧
      (createOrder Faults.none sampleDB chaiRequest).response.success = true ∧
      (createOrder Faults.none sampleDB chaiRequest).db.orders = [chaiOrder] ∧
      tokenSeq (createOrder Faults.none sampleDB chaiRequest).db = 1 ∧
      tokenNumber chaiOrder.orderToken = 1 := by
  decide

/-- C18: whatever requests of the order engine and of the menu controller are served after
an order is stored, the stored order keeps its `_id`, owner, token, lines, payment mode and
`totalAmount`; `updateOrderStatus` changes no menu item and no counter; and creating,
updating or deleting a menu item leaves the orders as they are. -/
theorem order_immutable_after_creation (db : DB) (reqs : List Request) (id : Nat) (o : Order)
    (hfind : findOrder id db.orders = some o) :
    (∃ o1, findOrder id (serve db reqs).orders = some o1 ∧
        o1._id = o._id ∧ o1.userId = o.userId ∧ o1.orderToken = o.orderToken ∧
        o1.items = o.items ∧ o1.paymentMode = o.paymentMode ∧
        o1.totalAmount = o.totalAmount) ∧
      (∀ (f : Faults) (req : StatusRequest),
        (updateOrderStatus f db req).db.menuItems = db.menuItems ∧
          (updateOrderStatus f db req).db.counters = db.counters) ∧
      (∀ (f : Faults) (mid : IdArg) (body : MenuItemInput),
        (createMenuItem f db body).db.orders = db.orders ∧
          (updateMenuItem f db mid body).db.orders = db.orders ∧
          (deleteMenuItem f db mid).db.orders = db.orders) := by
  refine ⟨?_, fun f req => updateOrderStatus_frame f db req,
    fun f mid body => menu_requests_frame f db mid body⟩
  obtain ⟨o1, h1, hp⟩ := serve_immutablePart reqs db id o hfind
  simp only [immutablePart, Prod.mk.injEq] at hp
  exact ⟨o1, h1, hp.1, hp.2.1, hp.2.2.1, hp.2.2.2.1, hp.2.2.2.2.1, hp.2.2.2.2.2⟩

/-- C18, an instance: after a price edit of `Chai`, the cancellation of the order, the
removal of `Chai` and a further order, the sample order has its lines and its total. -/
theorem order_immutable_after_creation_witness :
    findOrder 1 completedDB.orders = some completedOrder ∧
      (findOrder 1 (serve completedDB sampleRequests).orders).map
          (fun o => (o.status, o.items, o.totalAmount))
        = some (some "Cancelled", [⟨1, "Chai", 10, 3⟩], 30) ∧
      (serve completedDB sampleRequests).menuItems = [{ samosa with availableStock := 1 }] ∧
      ((∃ o1, findOrder 1 (serve completedDB sampleRequests).orders = some o1 ∧
          o1._id = completedOrder._id ∧ o1.userId = completedOrder.userId ∧
          o1.orderToken = completedOrder.orderToken ∧ o1.items = completedOrder.items ∧
          o1.paymentMode = completedOrder.paymentMode ∧
          o1.totalAmount = completedOrder.totalAmount) ∧
        (∀ (f : Faults) (req : StatusRequest),
          (updateOrderStatus f completedDB req).db.menuItems = completedDB.menuItems ∧
            (updateOrderStatus f completedDB req).db.counters = completedDB.counters) ∧
        (∀ (f : Faults) (mid : IdArg) (body : MenuItemInput),
          (createMenuItem f completedDB body).db.orders = completedDB.orders ∧
            (updateMenuItem f completedDB mid body).db.orders = completedDB.orders ∧
            (deleteMenuItem f completedDB mid).db.orders = completedDB.orders)) :=
  ⟨by decide, by decide, by decide,
    order_immutable_after_creation completedDB sampleRequests 1 completedOrder (by decide)⟩

/-! ### The width of a token -/

theorem toDigitsCore_digit (fuel : Nat) :
    ∀ (n : Nat) (c : Char), c ∈ Nat.toDigitsCore 10 fuel n [] → c.toNat - '0'.toNat < 10 := by
  induction fuel with
  | zero => intro n c h; simp [Nat.toDigitsCore] at h
  | succ fuel ih =>
    intro n c h
    simp only [Nat.toDigitsCore] at h
    split at h
    · rw [List.mem_singleton] at h
      rw [h, digitChar_value _ (Nat.mod_lt _ (by decide))]
      exact Nat.mod_lt _ (by decide)
    · rw [toDigitsCore_append] at h
      rcases List.mem_append.mp h with h | h
      · exact ih _ _ h
      · rw [List.mem_singleton] at h
        rw [h, digitChar_value _ (Nat.mod_lt _ (by decide))]
        exact Nat.mod_lt _ (by decide)

theorem foldl_digits_bound (l : List Char) :
    ∀ a : Nat, (∀ c ∈ l, c.toNat - '0'.toNat < 10) →
      l.foldl (fun acc c => acc * 10 + (c.toNat - '0'.toNat)) a + 1
        ≤ (a + 1) * 10 ^ l.length := by
  induction l with
  | nil => intro a _; simp
  | cons c cs ih =>
    intro a h
    have hc : c.toNat - '0'.toNat < 10 := h c (List.mem_cons_self _ _)
    have hrest := ih (a * 10 + (c.toNat - '0'.toNat))
      (fun d hd => h d (List.mem_cons_of_mem _ hd))
    simp only [List.foldl_cons, List.length_cons]
    refine le_trans hrest ?_
    have hle : a * 10 + (c.toNat - '0'.toNat) + 1 ≤ (a + 1) * 10 := by omega
    calc (a * 10 + (c.toNat - '0'.toNat) + 1) * 10 ^ cs.length
        ≤ ((a + 1) * 10) * 10 ^ cs.length := Nat.mul_le_mul_right _ hle
      _ = (a + 1) * 10 ^ (cs.length + 1) := by rw [pow_succ]; ring

/-- A number is below ten to the number of its digits. -/
theorem lt_pow_length_toString (n : Nat) : n < 10 ^ (toString n).length := by
  have hdig : ∀ c ∈ (toString n).data, c.toNat - '0'.toNat < 10 := by
    intro c hc
    exact toDigitsCore_digit (n + 1) n c hc
  have hb := foldl_digits_bound (toString n).data 0 hdig
  have hv : decimalValue (toString n).data = n := decimalValue_toString n
  unfold decimalValue at hv
  rw [hv] at hb
  have hlen : (toString n).length = (toString n).data.length := rfl
  rw [hlen]
  omega

theorem length_toString_le (n : Nat) (h : n < 10000) : (toString n).length ≤ 4 :=
  Nat.repr_length n 4 (by decide) (by simpa using h)

theorem length_orderTokenOf (n : Nat) :
    (orderTokenOf n).length = 3 + ((4 - (toString n).length) + (toString n).length) := by
  have h : (orderTokenOf n).length = (orderTokenOf n).data.length := rfl
  rw [h, orderTokenOf_data]
  simp only [List.length_append, List.length_cons, List.length_nil, List.length_replicate]
  rfl

/-! ### The cart -/

theorem map_id_of_item_eq (g : CartItem → CartItem) (hg : ∀ c, (g c).item = c.item)
    (cart : List CartItem) :
    (cart.map g).map (fun c => c.item._id) = cart.map (fun c => c.item._id) := by
  induction cart with
  | nil => rfl
  | cons c cs ih => simp only [List.map_cons, ih, hg c]

theorem cartOk_addToCart (item : MenuItem) (cart : List CartItem) (h : cartOk cart) :
    cartOk (addToCart item cart) := by
  unfold addToCart
  split
  · refine ⟨?_, ?_⟩
    · rw [map_id_of_item_eq _ (fun c => by split <;> rfl)]
      exact h.1
    · intro c hc
      obtain ⟨c0, hc0, hce⟩ := List.mem_map.mp hc
      have h0 := h.2 c0 hc0
      split at hce
      · rw [← hce]; show 1 ≤ c0.qty + 1; omega
      · rw [← hce]; exact h0
  · rename_i hnone
    refine ⟨?_, ?_⟩
    · rw [List.map_append, List.nodup_append]
      refine ⟨h.1, List.nodup_singleton _, ?_⟩
      intro a ha hb
      obtain ⟨c, hc, hca⟩ := List.mem_map.mp ha
      simp only [List.map_cons, List.map_nil, List.mem_singleton] at hb
      have := List.find?_eq_none.mp hnone c hc
      simp only [decide_eq_true_eq] at this
      exact this (hca.trans hb)
    · intro c hc
      rcases List.mem_append.mp hc with hc | hc
      · exact h.2 c hc
      · rw [List.mem_singleton] at hc
        rw [hc]

theorem cartOk_removeFromCart (itemId : Nat) (cart : List CartItem) (h : cartOk cart) :
    cartOk (removeFromCart itemId cart) := by
  unfold removeFromCart
  refine ⟨?_, ?_⟩
  · exact List.Nodup.sublist (List.Sublist.map _ (List.filter_sublist cart)) h.1
  · intro c hc
    exact h.2 c (List.mem_of_mem_filter hc)

theorem cartOk_updateCartQty (itemId : Nat) (qty : Int) (cart : List CartItem)
    (h : cartOk cart) : cartOk (updateCartQty itemId qty cart) := by
  unfold updateCartQty
  split
  · exact cartOk_removeFromCart itemId cart h
  · rename_i hq
    refine ⟨?_, ?_⟩
    · rw [map_id_of_item_eq _ (fun c => by split <;> rfl)]
      exact h.1
    · intro c hc
      obtain ⟨c0, hc0, hce⟩ := List.mem_map.mp hc
      have h0 := h.2 c0 hc0
      split at hce
      · rw [← hce]; show 1 ≤ qty; omega
      · rw [← hce]; exact h0

theorem cartOk_apply (a : CartAction) (cart : List CartItem) (h : cartOk cart) :
    cartOk (a.apply cart) := by
  cases a with
  | add item => exact cartOk_addToCart item cart h
  | remove itemId => exact cartOk_removeFromCart itemId cart h
  | update itemId qty => exact cartOk_updateCartQty itemId qty cart h
  | clear => exact ⟨List.nodup_nil, by intro c hc; simp [CartAction.apply, clearCart] at hc⟩

theorem cartOk_cartAfter (actions : List CartAction) :
    ∀ cart : List CartItem, cartOk cart → cartOk (cartAfter cart actions) := by
  induction actions with
  | nil => intro cart h; exact h
  | cons a as ih => intro cart h; exact ih _ (cartOk_apply a cart h)

/-! ### Outcomes in full -/

theorem mem_saveOrder {x m : Order} {os : List Order} (h : m ∈ saveOrder x os) :
    m = x ∨ m ∈ os := by
  induction os with
  | nil => simp [saveOrder] at h
  | cons a as ih =>
    unfold saveOrder at h
    split at h
    · rcases List.mem_cons.mp h with h | h
      · exact Or.inl h
      · exact Or.inr (List.mem_cons_of_mem _ h)
    · rcases List.mem_cons.mp h with h | h
      · exact Or.inr (h ▸ List.mem_cons_self _ _)
      · rcases ih h with h | h
        · exact Or.inl h
        · exact Or.inr (List.mem_cons_of_mem _ h)

/-- The events `updateOrderStatus` emits for a saved order when `req.io` is set. -/
theorem updateOrderStatus_of_saved {f : Faults} {db : DB} {req : StatusRequest} {id : Nat}
    {stored : Order} (hid : req.id = .oid id) (hf : f.find 0 = false)
    (hfind : findOrder id db.orders = some stored)
    (hvalid : validOrder (updateStatus stored req.status) = true) (hs : f.save 0 = false)
    (hpop : f.populate = false) (hemit : req.socket = true → f.emit = false) :
    updateOrderStatus f db req
      = ⟨{ db with orders := saveOrder (updateStatus stored req.status) db.orders },
          .ok 200 (some (populate db.users (hydrate (updateStatus stored req.status)))),
          if req.socket = true then
            [⟨"admin_room", "order:update",
                .order (some (populate db.users (hydrate (updateStatus stored req.status))))⟩,
             ⟨"user_" ++ toString stored.userId, "notify:user",
                .notification "order_status"
                  ("Your order " ++ stored.orderToken ++ " is now " ++ statusText req.status)
                  (some (populate db.users (hydrate (updateStatus stored req.status))))⟩]
          else []⟩ := by
  have hpre : preSave false (updateStatus stored req.status)
      = updateStatus stored req.status := rfl
  have hsid : stored._id = id := findOrder_id hfind
  have hfind2 : findOrder (updateStatus stored req.status)._id db.orders = some stored := by
    show findOrder stored._id db.orders = some stored
    rw [hsid]; exact hfind
  have hread := findOrder_save hfind2
  unfold updateOrderStatus
  simp only [hid, hf, hfind, hpre, hvalid, hs, hpop, Bool.not_true, Bool.false_eq_true,
    if_false, hread, Option.map_some']
  cases hsock : req.socket with
  | false => simp [updateStatus]
  | true =>
    have he := hemit hsock
    simp [he, updateStatus]

/-- An `updateOrderStatus` that answers with success has saved the order, read it back and,
when `req.io` is set, emitted the two events. -/
theorem updateOrderStatus_success {f : Faults} {db : DB} {req : StatusRequest}
    (h : (updateOrderStatus f db req).response.success = true) :
    ∃ id stored, req.id = .oid id ∧ findOrder id db.orders = some stored ∧
      validOrder (updateStatus stored req.status) = true ∧
      updateOrderStatus f db req
        = ⟨{ db with orders := saveOrder (updateStatus stored req.status) db.orders },
            .ok 200 (some (populate db.users (hydrate (updateStatus stored req.status)))),
            if req.socket = true then
              [⟨"admin_room", "order:update",
                  .order (some (populate db.users (hydrate (updateStatus stored req.status))))⟩,
               ⟨"user_" ++ toString stored.userId, "notify:user",
                  .notification "order_status"
                    ("Your order " ++ stored.orderToken ++ " is now "
                      ++ statusText req.status)
                    (some (populate db.users (hydrate (updateStatus stored req.status))))⟩]
            else []⟩ := by
  rcases updateOrderStatus_db f db req with ⟨-, hfail⟩ | ⟨id, stored, hid, hf, hfind, hvalid, hs, -⟩
  · rw [hfail] at h; cases h
  · have hpre : preSave false (updateStatus stored req.status)
        = updateStatus stored req.status := rfl
    have hpop : f.populate = false := by
      cases hp : f.populate with
      | false => rfl
      | true =>
        exfalso
        unfold updateOrderStatus at h
        simp [hid, hf, hfind, hpre, hvalid, hs, hp, Response.success] at h
    have hemit : req.socket = true → f.emit = false := by
      intro hsock
      cases he : f.emit with
      | false => rfl
      | true =>
        exfalso
        unfold updateOrderStatus at h
        simp [hid, hf, hfind, hpre, hvalid, hs, hpop, hsock, he, Response.success] at h
    exact ⟨id, stored, hid, hfind, hvalid,
      updateOrderStatus_of_saved hid hf hfind hvalid hs hpop hemit⟩

/-- An `updateOrderStatus` that does not answer with success emits nothing. -/
theorem updateOrderStatus_failure_emits_nothing {f : Faults} {db : DB} {req : StatusRequest}
    (h : (updateOrderStatus f db req).response.success = false) :
    (updateOrderStatus f db req).emitted = [] := by
  have hpre : ∀ o : Order, preSave false o = o := fun _ => rfl
  cases hid : req.id with
  | malformed raw => simp [updateOrderStatus, hid]
  | oid id =>
    cases hf : f.find 0 with
    | true => simp [updateOrderStatus, hid, hf]
    | false =>
      cases hfind : findOrder id db.orders with
      | none => simp [updateOrderStatus, hid, hf, hfind]
      | some stored =>
        cases hvalid : validOrder (updateStatus stored req.status) with
        | false => simp [updateOrderStatus, hid, hf, hfind, hpre, hvalid]
        | true =>
          cases hs : f.save 0 with
          | true => simp [updateOrderStatus, hid, hf, hfind, hpre, hvalid, hs]
          | false =>
            cases hpop : f.populate with
            | true => simp [updateOrderStatus, hid, hf, hfind, hpre, hvalid, hs, hpop]
            | false =>
              cases hsock : req.socket with
              | false =>
                simp [updateOrderStatus, hid, hf, hfind, hpre, hvalid, hs, hpop, hsock]
              | true =>
                cases hemit : f.emit with
                | true =>
                  simp [updateOrderStatus, hid, hf, hfind, hpre, hvalid, hs, hpop, hsock, hemit]
                | false =>
                  exfalso
                  rw [updateOrderStatus_of_saved hid hf hfind hvalid hs hpop
                    (fun _ => hemit)] at h
                  cases h

/-- The outcome of a `createOrder` that answers with success. -/
theorem createOrder_success_outcome {f : Faults} {db : DB} {req : CreateRequest}
    (h : (createOrder f db req).response.success = true) :
    ∃ db1 order, createOrderTxn f db req = .ok (db1, order) ∧
      createOrder f db req
        = ⟨db1, .ok 201 (some (populate db.users order)),
            if req.socket = true then
              [⟨"admin_room", "order:new", .order (some (populate db.users order))⟩]
            else []⟩ := by
  obtain ⟨db1, order, htx, -, -⟩ := createOrder_success h
  obtain ⟨cart, s1, lines, total, -, -, -, -, -, -, hord, -, -, hdb⟩ := createOrderTxn_ok htx
  have hfind : findOrder order._id db1.orders = some order := by
    rw [hdb]; exact findOrder_fresh (by rw [hord])
  have hu : db1.users = db.users := by rw [hdb]
  have hhyd : hydrate order = order := hydrate_of_status (by rw [hord])
  refine ⟨db1, order, htx, ?_⟩
  simp only [createOrder, htx, hfind, Option.map_some', hu, hhyd] at h ⊢
  cases hpop : f.populate with
  | true => simp [hpop, Response.success] at h
  | false =>
    cases hsock : req.socket with
    | false => simp
    | true =>
      cases hemit : f.emit with
      | true => simp [hpop, hsock, hemit, Response.success] at h
      | false => simp

/-- A `createOrder` that does not answer with success emits nothing. -/
theorem createOrder_failure_emits_nothing {f : Faults} {db : DB} {req : CreateRequest}
    (h : (createOrder f db req).response.success = false) :
    (createOrder f db req).emitted = [] := by
  cases htx : createOrderTxn f db req with
  | error e =>
    obtain ⟨db1, r⟩ := e
    rw [createOrder_of_error htx]
  | ok res =>
    obtain ⟨db1, order⟩ := res
    simp only [createOrder, htx] at h ⊢
    split
    · rfl
    · split
      · split
        · rfl
        · rename_i hpop hsock hemit
          simp [hpop, hsock, hemit, Response.success] at h
      · rename_i hpop hsock
        simp [hpop, hsock, Response.success] at h

/-! ### Invariants of the stored orders -/

/-- An order stored after a request was stored before, or was created by the request, or is
a stored order to which the request has applied `updateStatus`. -/
theorem apply_orders_mem (r : Request) (db : DB) (o : Order) (ho : o ∈ (r.apply db).orders) :
    o ∈ db.orders ∨
      (∃ f req db1, createOrderTxn f db req = .ok (db1, o)) ∨
      (∃ stored status, stored ∈ db.orders ∧ o = updateStatus stored status) := by
  cases r with
  | order op =>
    cases op with
    | create f req =>
      have ho1 : o ∈ (createOrder f db req).db.orders := ho
      cases htx : createOrderTxn f db req with
      | error e =>
        obtain ⟨db1, r⟩ := e
        rw [createOrder_of_error htx] at ho1
        exact Or.inl ho1
      | ok res =>
        obtain ⟨db1, order⟩ := res
        rw [createOrder_db_of_ok htx, (createOrderTxn_ok_token htx).1] at ho1
        rcases List.mem_append.mp ho1 with h | h
        · exact Or.inl h
        · rw [List.mem_singleton] at h
          subst h
          exact Or.inr (Or.inl ⟨f, req, db1, htx⟩)
    | status f req =>
      have ho1 : o ∈ (updateOrderStatus f db req).db.orders := ho
      rcases updateOrderStatus_db f db req with ⟨hdb, -⟩ | ⟨id, stored, -, -, hfind, -, -, hdb⟩
      · rw [hdb] at ho1; exact Or.inl ho1
      · rw [hdb] at ho1
        rcases mem_saveOrder ho1 with h | h
        · exact Or.inr (Or.inr ⟨stored, req.status, findOrder_mem hfind, h⟩)
        · exact Or.inl h
  | menuCreate f body =>
    have ho1 : o ∈ (createMenuItem f db body).db.orders := ho
    rw [(menu_requests_frame f db (.oid 0) body).1] at ho1
    exact Or.inl ho1
  | menuUpdate f mid body =>
    have ho1 : o ∈ (updateMenuItem f db mid body).db.orders := ho
    rw [(menu_requests_frame f db mid body).2.1] at ho1
    exact Or.inl ho1
  | menuDelete f mid =>
    have ho1 : o ∈ (deleteMenuItem f db mid).db.orders := ho
    rw [(menu_requests_frame f db mid ⟨none, none, none, none, none, none⟩).2.2] at ho1
    exact Or.inl ho1

/-- A property of orders that the created orders have and `updateStatus` keeps holds for all
stored orders after any sequence of requests. -/
theorem serve_orders_invariant (P : Order → Prop)
    (hnew : ∀ f db req db1 o, createOrderTxn f db req = .ok (db1, o) → P o)
    (hupd : ∀ o status, P o → P (updateStatus o status)) (reqs : List Request) :
    ∀ db : DB, (∀ o ∈ db.orders, P o) → ∀ o ∈ (serve db reqs).orders, P o := by
  induction reqs with
  | nil => intro db h; exact h
  | cons r rs ih =>
    intro db h
    apply ih (r.apply db)
    intro o ho
    rcases apply_orders_mem r db o ho with h1 | ⟨f, req, db1, htx⟩ | ⟨stored, status, hs, he⟩
    · exact h o h1
    · exact hnew f db req db1 o htx
    · rw [he]; exact hupd stored status (h stored hs)

theorem createOrderTxn_ok_wellFormed {f : Faults} {db db1 : DB} {req : CreateRequest}
    {order : Order} (h : createOrderTxn f db req = .ok (db1, order)) :
    wellFormedOrder order := by
  obtain ⟨cart, s1, lines, total, -, -, -, -, -, -, hord, hvalid, -, -⟩ := createOrderTxn_ok h
  simp only [validOrder, Bool.and_eq_true, List.all_eq_true, decide_eq_true_eq] at hvalid
  refine ⟨hvalid.1.1.1.1.2, ?_, hvalid.1.2⟩
  intro l hl
  have hv := hvalid.1.1.1.2 l hl
  simp only [validOrderItem, Bool.and_eq_true, decide_eq_true_eq] at hv
  exact ⟨hv.2, hv.1.2⟩

theorem createOrderTxn_ok_status {f : Faults} {db db1 : DB} {req : CreateRequest}
    {order : Order} (h : createOrderTxn f db req = .ok (db1, order)) :
    statusIsLastEntry order := by
  obtain ⟨cart, s1, lines, total, -, -, -, -, -, -, hord, -, -, -⟩ := createOrderTxn_ok h
  rw [hord]
  rfl

theorem statusIsLastEntry_updateStatus (o : Order) (status : Option String) :
    statusIsLastEntry (updateStatus o status) := by
  simp [statusIsLastEntry, updateStatus]

theorem validOrder_eq (o : Order) :
    validOrder o = (validOrderFields o && validStatus o.status) := rfl

/-! ## The claims, concluded -/

/-- C21, refuted: the value the generator issues after 9999 is 10000, and its token has 8
characters. -/
theorem orderToken_width_counterexample :
    (getNextSequence "orderToken" [⟨"orderToken", 9999⟩]).1 = 10000 ∧
      orderTokenOf 10000 = "TKN10000" ∧ (orderTokenOf 10000).length = 8 := by
  decide

/-- C21, amended: for a sequence value below 10000 the token is `TKN` followed by the digits
of the value padded with zeros to exactly 4 characters, 7 characters in all; from 10000 on
the token is `TKN` followed by the digits of the value without padding, 8 characters or
more. -/
theorem orderToken_width (n : Nat) :
    if n < 10000 then
      (orderTokenOf n).length = 7 ∧
        (orderTokenOf n).data
          = ['T', 'K', 'N']
              ++ (List.replicate (4 - (toString n).length) '0' ++ (toString n).data) ∧
        (List.replicate (4 - (toString n).length) '0' ++ (toString n).data).length = 4
    else
      8 ≤ (orderTokenOf n).length ∧
        (orderTokenOf n).data = ['T', 'K', 'N'] ++ (toString n).data := by
  have hlen : (toString n).data.length = (toString n).length := rfl
  split
  · rename_i h
    have hle := length_toString_le n h
    refine ⟨?_, orderTokenOf_data n, ?_⟩
    · rw [length_orderTokenOf]; omega
    · simp only [List.length_append, List.length_replicate, hlen]; omega
  · rename_i h
    have hlt := lt_pow_length_toString n
    have h5 : 5 ≤ (toString n).length := by
      by_contra hcon
      have hle : (toString n).length ≤ 4 := by omega
      have : 10 ^ (toString n).length ≤ 10 ^ 4 := Nat.pow_le_pow_right (by decide) hle
      omega
    refine ⟨?_, ?_⟩
    · rw [length_orderTokenOf]; omega
    · rw [orderTokenOf_data]
      have hz : 4 - (toString n).length = 0 := by omega
      rw [hz]
      rfl

/-- C30: the cart reached from the empty cart by any sequence of `addToCart`,
`removeFromCart`, `updateCartQty` and `clearCart` calls has no two entries with the same
item `_id` and a `qty` of at least one in every entry, and each of the four functions keeps
that; `addToCart` of an item that is in the cart adds one to the `qty` of its entry and adds
no entry, of an item that is not in the cart it appends the item with `qty` 1; and
`updateCartQty` with a `qty` of zero or less removes the entry. -/
theorem cart_invariant (actions : List CartAction) (cart : List CartItem) (item : MenuItem)
    (itemId : Nat) (qty : Int) :
    cartOk (cartAfter [] actions) ∧
      (cartOk cart →
        cartOk (addToCart item cart) ∧ cartOk (removeFromCart itemId cart) ∧
          cartOk (updateCartQty itemId qty cart) ∧ cartOk (clearCart cart)) ∧
      ((∃ c ∈ cart, c.item._id = item._id) →
        addToCart item cart
            = cart.map (fun c =>
                if c.item._id = item._id then { c with qty := c.qty + 1 } else c) ∧
          (addToCart item cart).length = cart.length) ∧
      ((∀ c ∈ cart, c.item._id ≠ item._id) → addToCart item cart = cart ++ [⟨item, 1⟩]) ∧
      (qty ≤ 0 →
        updateCartQty itemId qty cart = removeFromCart itemId cart ∧
          ∀ c ∈ updateCartQty itemId qty cart, c.item._id ≠ itemId) := by
  refine ⟨cartOk_cartAfter actions [] ⟨List.nodup_nil, by simp⟩, ?_, ?_, ?_, ?_⟩
  · intro h
    exact ⟨cartOk_addToCart item cart h, cartOk_removeFromCart itemId cart h,
      cartOk_updateCartQty itemId qty cart h, cartOk_apply .clear cart h⟩
  · rintro ⟨c, hc, hid⟩
    have hsome : ∃ x, cart.find? (fun cartItem => cartItem.item._id = item._id) = some x := by
      cases hf : cart.find? (fun cartItem => cartItem.item._id = item._id) with
      | some x => exact ⟨x, rfl⟩
      | none =>
        have := List.find?_eq_none.mp hf c hc
        simp only [decide_eq_true_eq] at this
        exact absurd hid this
    obtain ⟨x, hx⟩ := hsome
    have heq : addToCart item cart
        = cart.map (fun c =>
            if c.item._id = item._id then { c with qty := c.qty + 1 } else c) := by
      simp only [addToCart, hx]
    exact ⟨heq, by rw [heq, List.length_map]⟩
  · intro hnone
    have hf : cart.find? (fun cartItem => cartItem.item._id = item._id) = none := by
      rw [List.find?_eq_none]
      intro c hc
      simp only [decide_eq_true_eq]
      exact hnone c hc
    simp only [addToCart, hf]
  · intro hq
    have heq : updateCartQty itemId qty cart = removeFromCart itemId cart := by
      simp only [updateCartQty, hq, if_true]
    refine ⟨heq, ?_⟩
    intro c hc
    rw [heq] at hc
    unfold removeFromCart at hc
    have := (List.mem_filter.mp hc).2
    simpa using this

/-- C22: when every stored order has at least one line, a quantity of at least one and a
price that is not negative on every line, and a total that is not negative, then so has
every order stored after any sequence of `createOrder`, `updateOrderStatus` and menu
requests. -/
theorem orders_well_formed (db : DB) (reqs : List Request)
    (h : ∀ o ∈ db.orders, wellFormedOrder o) :
    ∀ o ∈ (serve db reqs).orders, wellFormedOrder o :=
  serve_orders_invariant wellFormedOrder
    (fun _ _ _ _ _ htx => createOrderTxn_ok_wellFormed htx)
    (fun _ _ ho => ho) reqs db h

/-- C22, an instance: the sample requests served after the sample order was completed. -/
theorem orders_well_formed_witness :
    (∀ o ∈ completedDB.orders, wellFormedOrder o) ∧
      ∀ o ∈ (serve completedDB sampleRequests).orders, wellFormedOrder o :=
  ⟨by simp [completedDB, completedOrder, chaiOrder, wellFormedOrder],
    orders_well_formed completedDB sampleRequests
      (by simp [completedDB, completedOrder, chaiOrder, wellFormedOrder])⟩

/-- C23: with `req.io` set (the server sets it on every request), a `createOrder` that
answers with success has stored the order and emitted exactly one event, `order:new` to
`admin_room`, carrying the stored order with its owner populated; a `createOrder` that does
not answer with success emits nothing. -/
theorem createOrder_publishes_after_commit (f : Faults) (db : DB) (req : CreateRequest)
    (hio : req.socket = true) :
    if (createOrder f db req).response.success = true then
      ∃ order, (createOrder f db req).db.orders = db.orders ++ [order] ∧
        (createOrder f db req).response = .ok 201 (some (populate db.users order)) ∧
        (createOrder f db req).emitted
          = [⟨"admin_room", "order:new", .order (some (populate db.users order))⟩] ∧
        (populate db.users order).user
          = (db.users.find? (fun u => u._id = req.userId)).map
              (fun u => ⟨u._id, u.name, u.email⟩)
    else (createOrder f db req).emitted = [] := by
  split
  · rename_i h
    obtain ⟨db1, order, htx, hout⟩ := createOrder_success_outcome h
    obtain ⟨cart, s1, lines, total, -, -, -, -, -, -, hord, -, -, hdb⟩ := createOrderTxn_ok htx
    refine ⟨order, ?_, ?_, ?_, ?_⟩
    · rw [hout, hdb]
    · rw [hout]
    · rw [hout]; simp [hio]
    · rw [hord]; rfl
  · rename_i h
    exact createOrder_failure_emits_nothing (by simpa using h)

/-- C23, the scenario: the order for three `Chai` is published to `admin_room`. -/
theorem createOrder_publishes_after_commit_witness :
    chaiRequest.socket = true ∧
      (createOrder Faults.none sampleDB chaiRequest).emitted
        = [⟨"admin_room", "order:new", .order (some (populate sampleDB.users chaiOrder))⟩] ∧
      (if (createOrder Faults.none sampleDB chaiRequest).response.success = true then
        ∃ order, (createOrder Faults.none sampleDB chaiRequest).db.orders
            = sampleDB.orders ++ [order] ∧
          (createOrder Faults.none sampleDB chaiRequest).response
            = .ok 201 (some (populate sampleDB.users order)) ∧
          (createOrder Faults.none sampleDB chaiRequest).emitted
            = [⟨"admin_room", "order:new", .order (some (populate sampleDB.users order))⟩] ∧
          (populate sampleDB.users order).user
            = (sampleDB.users.find? (fun u => u._id = chaiRequest.userId)).map
                (fun u => ⟨u._id, u.name, u.email⟩)
      else (createOrder Faults.none sampleDB chaiRequest).emitted = []) :=
  ⟨rfl, by decide, createOrder_publishes_after_commit Faults.none sampleDB chaiRequest rfl⟩

/-- C24, refuted: for the sample order moved to `Ready` the message of the notification is
`Your order TKN0001 is now Ready`, which is not `TKN0001 is now Ready`. -/
theorem updateOrderStatus_message_counterexample :
    (updateOrderStatus Faults.none placedDB ⟨.oid 1, some "Ready", true⟩).emitted
        = [⟨"admin_room", "order:update",
              .order (some (populate placedDB.users (updateStatus chaiOrder (some "Ready"))))⟩,
           ⟨"user_7", "notify:user",
              .notification "order_status" "Your order TKN0001 is now Ready"
                (some (populate placedDB.users (updateStatus chaiOrder (some "Ready"))))⟩] ∧
      "Your order TKN0001 is now Ready" ≠ chaiOrder.orderToken ++ " is now " ++ "Ready" := by
  decide

/-- C24, amended: with `req.io` set, an `updateOrderStatus` that answers with success has
saved the order and emitted two events: `order:update` to `admin_room` carrying the updated
order, and `notify:user` to the room `user_<userId>` of the owner of the order, of type
`order_status`, with the message `Your order <token> is now <status>` and the updated order;
an `updateOrderStatus` that does not answer with success emits nothing. -/
theorem updateOrderStatus_publishes (f : Faults) (db : DB) (req : StatusRequest)
    (hio : req.socket = true) :
    if (updateOrderStatus f db req).response.success = true then
      ∃ id stored, req.id = .oid id ∧ findOrder id db.orders = some stored ∧
        findOrder id (updateOrderStatus f db req).db.orders
          = some (updateStatus stored req.status) ∧
        (updateOrderStatus f db req).emitted
          = [⟨"admin_room", "order:update",
                .order (some (populate db.users (hydrate (updateStatus stored req.status))))⟩,
             ⟨"user_" ++ toString stored.userId, "notify:user",
                .notification "order_status"
                  ("Your order " ++ stored.orderToken ++ " is now " ++ statusText req.status)
                  (some (populate db.users (hydrate (updateStatus stored req.status))))⟩]
    else (updateOrderStatus f db req).emitted = [] := by
  split
  · rename_i h
    obtain ⟨id, stored, hid, hfind, -, hout⟩ := updateOrderStatus_success h
    have hsid : stored._id = id := findOrder_id hfind
    have hfind2 : findOrder (updateStatus stored req.status)._id db.orders = some stored := by
      show findOrder stored._id db.orders = some stored
      rw [hsid]; exact hfind
    have hread := findOrder_save hfind2
    rw [show (updateStatus stored req.status)._id = id from hsid] at hread
    refine ⟨id, stored, hid, hfind, ?_, ?_⟩
    · rw [hout]; exact hread
    · rw [hout]; simp [hio]
  · rename_i h
    exact updateOrderStatus_failure_emits_nothing (by simpa using h)

/-- C24, amended, an instance: the sample order moved to `Ready`. -/
theorem updateOrderStatus_publishes_witness :
    (⟨.oid 1, some "Ready", true⟩ : StatusRequest).socket = true ∧
      (if (updateOrderStatus Faults.none placedDB ⟨.oid 1, some "Ready", true⟩).response.success
          = true then
        ∃ id stored, (⟨.oid 1, some "Ready", true⟩ : StatusRequest).id = .oid id ∧
          findOrder id placedDB.orders = some stored ∧
          findOrder id
              (updateOrderStatus Faults.none placedDB ⟨.oid 1, some "Ready", true⟩).db.orders
            = some (updateStatus stored (some "Ready")) ∧
          (updateOrderStatus Faults.none placedDB ⟨.oid 1, some "Ready", true⟩).emitted
            = [⟨"admin_room", "order:update",
                  .order (some (populate placedDB.users (updateStatus stored (some "Ready"))))⟩,
               ⟨"user_" ++ toString stored.userId, "notify:user",
                  .notification "order_status"
                    ("Your order " ++ stored.orderToken ++ " is now "
                      ++ statusText (some "Ready"))
                    (some (populate placedDB.users (updateStatus stored (some "Ready"))))⟩]
      else (updateOrderStatus Faults.none placedDB ⟨.oid 1, some "Ready", true⟩).emitted = []) :=
  ⟨rfl, updateOrderStatus_publishes Faults.none placedDB ⟨.oid 1, some "Ready", true⟩ rfl⟩

/-- C25, the code at the failing input: when the emit on the socket throws, `createOrder`
writes no response at all (its catch block aborts the committed session, which throws in
turn) although the order is stored and the stock is taken, and `updateOrderStatus` answers
500 through the catch block although the status is saved; neither caller receives the
success response. -/
theorem publish_failure_answers_error :
    (createOrder emitFails sampleDB chaiRequest).response = .unanswered ∧
      (createOrder emitFails sampleDB chaiRequest).response.success = false ∧
      (createOrder emitFails sampleDB chaiRequest).db.orders = [chaiOrder] ∧
      stockOf 1 (createOrder emitFails sampleDB chaiRequest).db.menuItems = some 97 ∧
      (updateOrderStatus emitFails placedDB ⟨.oid 1, some "Ready", true⟩).response
        = .caught .storage ∧
      (updateOrderStatus emitFails placedDB ⟨.oid 1, some "Ready", true⟩).response.code
        = 500 ∧
      (updateOrderStatus emitFails placedDB ⟨.oid 1, some "Ready", true⟩).db.orders
        = [updateStatus chaiOrder (some "Ready")] := by
  decide

/-- C26: for a stored order whose other fields pass the schema, whatever its status, and a
new status that is one of the five values of the `enum`, `updateOrderStatus` (when no
storage call throws) answers 200 and the stored order has the new status and one more
history entry. -/
theorem updateOrderStatus_any_transition (f : Faults) (db : DB) (id : Nat) (stored : Order)
    (status : String) (socket : Bool)
    (hfind : findOrder id db.orders = some stored)
    (hvalid : validOrderFields stored = true) (hstatus : status ∈ statusEnum)
    (hf : f.find 0 = false) (hs : f.save 0 = false) (hpop : f.populate = false)
    (hemit : f.emit = false) :
    (updateOrderStatus f db ⟨.oid id, some status, socket⟩).response
        = .ok 200 (some (populate db.users
            { stored with
              status := some status
              statusHistory := stored.statusHistory ++ [⟨some status⟩] })) ∧
      findOrder id (updateOrderStatus f db ⟨.oid id, some status, socket⟩).db.orders
        = some { stored with
                  status := some status
                  statusHistory := stored.statusHistory ++ [⟨some status⟩] } := by
  have hv : validOrder (updateStatus stored (some status)) = true := by
    rw [validOrder_eq]
    have h1 : validOrderFields (updateStatus stored (some status)) = true := hvalid
    have h2 : validStatus (updateStatus stored (some status)).status = true := by
      show decide (status ∈ statusEnum) = true
      exact decide_eq_true hstatus
    rw [h1, h2]; rfl
  have hout := @updateOrderStatus_of_saved f db ⟨.oid id, some status, socket⟩ id stored
    rfl hf hfind hv hs hpop (fun _ => hemit)
  have hsid : stored._id = id := findOrder_id hfind
  have hfind2 : findOrder (updateStatus stored (some status))._id db.orders = some stored := by
    show findOrder stored._id db.orders = some stored
    rw [hsid]; exact hfind
  have hread := findOrder_save hfind2
  rw [show (updateStatus stored (some status))._id = id from hsid] at hread
  refine ⟨?_, ?_⟩
  · rw [hout]; rfl
  · rw [hout]; exact hread

/-- C26, the scenario: the sample order, `Placed`, is moved directly to `Ready`. -/
theorem updateOrderStatus_any_transition_witness :
    findOrder 1 placedDB.orders = some chaiOrder ∧ chaiOrder.status = some "Placed" ∧
      validOrderFields chaiOrder = true ∧ "Ready" ∈ statusEnum ∧
      ((updateOrderStatus Faults.none placedDB ⟨.oid 1, some "Ready", true⟩).response
          = .ok 200 (some (populate placedDB.users
              { chaiOrder with
                status := some "Ready"
                statusHistory := chaiOrder.statusHistory ++ [⟨some "Ready"⟩] })) ∧
        findOrder 1
            (updateOrderStatus Faults.none placedDB ⟨.oid 1, some "Ready", true⟩).db.orders
          = some { chaiOrder with
                    status := some "Ready"
                    statusHistory := chaiOrder.statusHistory ++ [⟨some "Ready"⟩] }) :=
  ⟨by decide, by decide, by decide, by decide,
    updateOrderStatus_any_transition Faults.none placedDB 1 chaiOrder "Ready" true
      (by decide) (by decide) (by decide) rfl rfl rfl rfl⟩

/-- Two calls handled one after the other that each ask for the two `Samosa` left: the first
answers with success, the second is answered `Insufficient stock for Samosa. Available: 0`,
and the stock ends at zero. (What two calls do that run at the same time is decided by the
isolation of the database transactions, which is outside this model.) -/
theorem createOrder_last_stock_in_turn :
    (createOrder Faults.none sampleDB
        ⟨7, some [⟨.oid 2, some 2, none⟩], none, none, true⟩).response.success = true ∧
      (createOrder Faults.none
          (createOrder Faults.none sampleDB
            ⟨7, some [⟨.oid 2, some 2, none⟩], none, none, true⟩).db
          ⟨7, some [⟨.oid 2, some 2, none⟩], none, none, true⟩).response
        = .fail 400 "Insufficient stock for Samosa. Available: 0" ∧
      stockOf 2
          (createOrder Faults.none
            (createOrder Faults.none sampleDB
              ⟨7, some [⟨.oid 2, some 2, none⟩], none, none, true⟩).db
            ⟨7, some [⟨.oid 2, some 2, none⟩], none, none, true⟩).db.menuItems
        = some 0 := by
  decide

/-- For the stored documents: when the status of every stored order is the status of the
last entry of its history, then so it is for every order stored after any sequence of
`createOrder`, `updateOrderStatus` and menu requests; the status is defined after a
successful `createOrder` (it is `Placed`) and after a successful `updateOrderStatus` whose
request carries a status (it is that status). -/
theorem stored_status_is_last_entry (db : DB) (reqs : List Request)
    (h : ∀ o ∈ db.orders, statusIsLastEntry o) :
    (∀ o ∈ (serve db reqs).orders, statusIsLastEntry o) ∧
      (∀ (f : Faults) (req : CreateRequest),
        (createOrder f db req).response.success = true →
        ∃ order, (createOrder f db req).db.orders = db.orders ++ [order] ∧
          order.status = some "Placed" ∧ statusIsLastEntry order) ∧
      (∀ (f : Faults) (req : StatusRequest) (status : String),
        req.status = some status →
        (updateOrderStatus f db req).response.success = true →
        ∃ id o, req.id = .oid id ∧
          findOrder id (updateOrderStatus f db req).db.orders = some o ∧
          o.status = some status ∧ statusIsLastEntry o) := by
  refine ⟨?_, ?_, ?_⟩
  · exact serve_orders_invariant statusIsLastEntry
      (fun _ _ _ _ _ htx => createOrderTxn_ok_status htx)
      (fun o status _ => statusIsLastEntry_updateStatus o status) reqs db h
  · intro f req hs
    obtain ⟨db1, order, htx, hdb1, -⟩ := createOrder_success hs
    obtain ⟨cart, s1, lines, total, -, -, -, -, -, -, hord, -, -, hdb⟩ := createOrderTxn_ok htx
    exact ⟨order, by rw [hdb1, hdb], by rw [hord], createOrderTxn_ok_status htx⟩
  · intro f req status hst hs
    obtain ⟨id, stored, hid, hfind, -, hout⟩ := updateOrderStatus_success hs
    have hsid : stored._id = id := findOrder_id hfind
    have hfind2 : findOrder (updateStatus stored req.status)._id db.orders = some stored := by
      show findOrder stored._id db.orders = some stored
      rw [hsid]; exact hfind
    have hread := findOrder_save hfind2
    rw [show (updateStatus stored req.status)._id = id from hsid] at hread
    refine ⟨id, updateStatus stored req.status, hid, by rw [hout]; exact hread, ?_,
      statusIsLastEntry_updateStatus stored req.status⟩
    show req.status = some status
    exact hst

/-- C28, the code at the failing input: a status request without a status for the sample
order is answered with success; the stored order has no status afterwards and the last
entry of its history has none either; the order that is answered, emitted and read by
`getOrder` afterwards has the status `Placed` of the schema default, while the last entry
of its history has no status. -/
theorem updateOrderStatus_status_absent :
    (updateOrderStatus Faults.none placedDB ⟨.oid 1, none, true⟩).response
        = .ok 200 (some (populate placedDB.users
            { chaiOrder with
              status := some "Placed"
              statusHistory := [⟨some "Placed"⟩, ⟨none⟩] })) ∧
      (updateOrderStatus Faults.none placedDB ⟨.oid 1, none, true⟩).db.orders
        = [{ chaiOrder with status := none, statusHistory := [⟨some "Placed"⟩, ⟨none⟩] }] ∧
      (updateOrderStatus Faults.none placedDB ⟨.oid 1, none, true⟩).emitted.map
          (fun e => e.room)
        = ["admin_room", "user_7"] ∧
      getOrder Faults.none (updateOrderStatus Faults.none placedDB ⟨.oid 1, none, true⟩).db
          ⟨7, "student"⟩ (.oid 1)
        = .ok 200 (some (populate placedDB.users
            { chaiOrder with
              status := some "Placed"
              statusHistory := [⟨some "Placed"⟩, ⟨none⟩] })) ∧
      (findOrder 1 (updateOrderStatus Faults.none placedDB ⟨.oid 1, none, true⟩).db.orders).map
          (fun o => ((hydrate o).status, (hydrate o).statusHistory.getLast?))
        = some (some "Placed", some ⟨none⟩) := by
  decide

/-- C29, the code at the failing input: the sample order is stored with status `Placed`, and
the list `getAllOrders` returns for the query of the kiosk is empty, because the status of
an order is compared with the whole text `Ready,In Preparation,Placed`. -/
theorem getAllOrders_kiosk_filter :
    chaiOrder ∈ placedDB.orders ∧ chaiOrder.status = some "Placed" ∧
      getAllOrders Faults.none placedDB kioskQuery = .ok 200 0 [] ∧
      getOrdersRoute Faults.none placedDB (some ⟨1, "staff"⟩) kioskQuery
        = .handled (.ok 200 0 []) ∧
      getAllOrders Faults.none placedDB ⟨some "Placed", none⟩
        = .ok 200 1 [populate placedDB.users chaiOrder] := by
  decide

end Canteen
